import Mathlib

/-!
# BMP codec of `ImgLib/bmp_image.cpp`

A shallow embedding of `GetBMPStride`, `SaveBMP` and `LoadBMP` together with the
two packed header structures, followed by theorems about them.

Conventions of the embedding:

* a file is the list of its bytes (`List Byte`); `SaveBMP` yields the bytes it
  wrote, `LoadBMP` receives the bytes of the file and takes `file_size` to be
  their number;
* `int` arithmetic is arithmetic on `Int` wrapped to 32 bits (two's complement),
  `uint32_t` arithmetic is arithmetic modulo `2^32`;
* the row buffer `std::vector<char> buff(BMPStride)` is a list of bytes of that
  length; creating it with a negative length, or indexing outside of it, has no
  defined result and is the value `none`. An index is compared with the length
  of the buffer before it is used; the buffer has fewer than `2^31` bytes, so an
  index that passes was computed without leaving the range of `int`.
-/

set_option autoImplicit false

namespace img_lib

/-! ## Bytes and machine integers -/

/-- One byte of a file or of a colour channel. -/
abbrev Byte := Fin 256

/-- The low eight bits of a natural number. -/
def byteOf (n : Nat) : Byte := ⟨n % 256, Nat.mod_lt n (by decide)⟩

/-- Conversion of an integer to `int32_t`: reduction modulo `2^32` into
`[-2^31, 2^31)`. -/
def wrapInt32 (n : Int) : Int := (n + 2147483648) % 4294967296 - 2147483648

/-- Conversion of an integer to `uint32_t`: reduction modulo `2^32`. -/
def wrapUInt32 (n : Int) : Nat := (n % 4294967296).toNat

/-- The two bytes of a `uint16_t` in memory order (little endian). -/
def le16 (n : Nat) : List Byte := [byteOf n, byteOf (n / 256)]

/-- The four bytes of a `uint32_t` in memory order (little endian). -/
def le32 (n : Nat) : List Byte :=
  [byteOf n, byteOf (n / 256), byteOf (n / 65536), byteOf (n / 16777216)]

/-- The four bytes of an `int32_t` in memory order (two's complement, little
endian). -/
def le32s (n : Int) : List Byte := le32 (wrapUInt32 n)

/-- The `uint16_t` stored at offset `i` of a byte sequence. -/
def getU16 (bs : List Byte) (i : Nat) : Nat :=
  (bs.getD i 0).val + 256 * (bs.getD (i + 1) 0).val

/-- The `uint32_t` stored at offset `i` of a byte sequence. -/
def getU32 (bs : List Byte) (i : Nat) : Nat :=
  (bs.getD i 0).val + 256 * (bs.getD (i + 1) 0).val + 65536 * (bs.getD (i + 2) 0).val
    + 16777216 * (bs.getD (i + 3) 0).val

/-- The `int32_t` stored at offset `i` of a byte sequence. -/
def getI32 (bs : List Byte) (i : Nat) : Int := wrapInt32 (getU32 bs i)

/-! ## The raster image (external collaborator) -/

/-- Modelled from the spec: `Color` is declared in a header that is not part of
the sources; the spec describes a pixel as an r, g, b triple of 8-bit
channels. -/
structure Color where
  r : Byte
  g : Byte
  b : Byte
deriving DecidableEq, Repr

/-- Modelled from the spec: the "black" sentinel `Color::Black()`, pixel
(0,0,0). -/
def Color.Black : Color := ⟨0, 0, 0⟩

/-- Modelled from the spec: `Image` is declared in a header that is not part of
the sources; the spec describes a width x height grid of pixels with `int`
width and height accessors and independently addressable rows. -/
structure Image where
  width : Int
  height : Int
  pixels : List (List Color)
deriving DecidableEq, Repr

namespace Image

/-- Modelled from the spec: the default image `Image{}` that `LoadBMP` returns on
a validation failure: no pixels, width 0, height 0. -/
def empty : Image := ⟨0, 0, []⟩

/-- Modelled from the spec: `Image(w, h, fill)` allocates a raster of `w` x `h`
pixels, every pixel set to `fill`. -/
def create (w h : Int) (fill : Color) : Image :=
  ⟨w, h, List.replicate h.toNat (List.replicate w.toNat fill)⟩

/-- Accessor `GetWidth()`. -/
def GetWidth (image : Image) : Int := image.width

/-- Accessor `GetHeight()`. -/
def GetHeight (image : Image) : Int := image.height

/-- Accessor `GetLine(y)`: the pixels of row `y`, when there is such a row. -/
def GetLine (image : Image) (y : Nat) : Option (List Color) := image.pixels[y]?

/-- The image after row `y` has been overwritten through the pointer returned
by `GetLine(y)`. -/
def setLine (image : Image) (y : Nat) (line : List Color) : Image :=
  { image with pixels := image.pixels.set y line }

/-- A raster image as the spec describes it: `int` width and height that are
non-negative, `height` rows, `width` pixels in every row. -/
def WF (image : Image) : Prop :=
  0 ≤ image.width ∧ image.width < 2147483648 ∧
  0 ≤ image.height ∧ image.height < 2147483648 ∧
  image.pixels.length = image.height.toNat ∧
  ∀ line ∈ image.pixels, line.length = image.width.toNat

instance (image : Image) : Decidable image.WF :=
  inferInstanceAs (Decidable (0 ≤ image.width ∧ image.width < 2147483648 ∧
    0 ≤ image.height ∧ image.height < 2147483648 ∧
    image.pixels.length = image.height.toNat ∧
    ∀ line ∈ image.pixels, line.length = image.width.toNat))

end Image

/-! ## The packed headers -/

/-- The struct `BitmapFileHeader`. -/
structure BitmapFileHeader where
  bf_type : Nat
  bf_size : Nat
  bf_reserved_1 : Nat
  bf_reserved_2 : Nat
  bf_off_bits : Nat
deriving DecidableEq, Repr

/-- The struct `BitmapInfoHeader`. -/
structure BitmapInfoHeader where
  bi_size : Nat
  bi_width : Int
  bi_height : Int
  bi_planes : Nat
  bi_bit_count : Nat
  bi_compression : Nat
  bi_size_image : Nat
  bi_x_pels_per_meter : Int
  bi_y_pels_per_meter : Int
  bi_clr_used : Int
  bi_clr_important : Int
deriving DecidableEq, Repr

/-- Modelled from the spec: `PACKED_STRUCT_BEGIN` / `PACKED_STRUCT_END` come from
`pack_defines.h`, which is not part of the sources; the spec fixes the
FileHeader at 14 tightly packed bytes. -/
def sizeofBitmapFileHeader : Nat := 14

/-- Modelled from the spec: the InfoHeader is 40 tightly packed bytes (see
`sizeofBitmapFileHeader`). -/
def sizeofBitmapInfoHeader : Nat := 40

/-- The object representation `(char*)&file_header`: the fields in declaration
order, without padding, each little endian. -/
def BitmapFileHeader.toBytes (h : BitmapFileHeader) : List Byte :=
  le16 h.bf_type ++ le32 h.bf_size ++ le16 h.bf_reserved_1 ++ le16 h.bf_reserved_2
    ++ le32 h.bf_off_bits

/-- The object representation `(char*)&info_header`. -/
def BitmapInfoHeader.toBytes (h : BitmapInfoHeader) : List Byte :=
  le32 h.bi_size ++ le32s h.bi_width ++ le32s h.bi_height ++ le16 h.bi_planes
    ++ le16 h.bi_bit_count ++ le32 h.bi_compression ++ le32 h.bi_size_image
    ++ le32s h.bi_x_pels_per_meter ++ le32s h.bi_y_pels_per_meter ++ le32s h.bi_clr_used
    ++ le32s h.bi_clr_important

/-- The `BitmapFileHeader` whose object representation is the 14 bytes `bs`. -/
def BitmapFileHeader.ofBytes (bs : List Byte) : BitmapFileHeader where
  bf_type := getU16 bs 0
  bf_size := getU32 bs 2
  bf_reserved_1 := getU16 bs 6
  bf_reserved_2 := getU16 bs 8
  bf_off_bits := getU32 bs 10

/-- The `BitmapInfoHeader` whose object representation is the 40 bytes `bs`. -/
def BitmapInfoHeader.ofBytes (bs : List Byte) : BitmapInfoHeader where
  bi_size := getU32 bs 0
  bi_width := getI32 bs 4
  bi_height := getI32 bs 8
  bi_planes := getU16 bs 12
  bi_bit_count := getU16 bs 14
  bi_compression := getU32 bs 16
  bi_size_image := getU32 bs 20
  bi_x_pels_per_meter := getI32 bs 24
  bi_y_pels_per_meter := getI32 bs 28
  bi_clr_used := getI32 bs 32
  bi_clr_important := getI32 bs 36

/-! ## Streams and the row buffer -/

/-- The call `ifs.read(p, n)` on a stream whose unread bytes are `ifs`: with at
least `n` bytes left it delivers them and the stream stays good; otherwise the
stream is no longer good (`none`). -/
def ifsRead (ifs : List Byte) (n : Nat) : Option (List Byte × List Byte) :=
  if n ≤ ifs.length then some (ifs.take n, ifs.drop n) else none

/-- The assignment `buff[i] = v`; outside the buffer it has no defined result. -/
def store (buff : List Byte) (i : Nat) (v : Byte) : Option (List Byte) :=
  if i < buff.length then some (buff.set i v) else none

/-- The call `std::fill(buff.begin() + start, buff.end(), 0)`. -/
def fillZero (buff : List Byte) (start : Int) : Option (List Byte) :=
  if 0 ≤ start ∧ start ≤ buff.length then
    some (buff.take start.toNat ++ List.replicate (buff.length - start.toNat) 0)
  else none

/-! ## GetBMPStride -/

/-- The function `GetBMPStride`: `alignment * ((width * byte_per_pix + byte_per_pix) /
alignment)` in `int` arithmetic; `/` truncates towards zero. -/
def GetBMPStride (width : Int) : Int :=
  let alignment : Int := 4
  let byte_per_pix : Int := 3
  wrapInt32 (alignment *
    Int.tdiv (wrapInt32 (wrapInt32 (width * byte_per_pix) + byte_per_pix)) alignment)

/-! ## SaveBMP -/

/-- The body of the loop over `x` in `SaveBMP`: the three stores of pixel `x`. -/
def SaveBMP.putPixel (line : List Color) (buff : List Byte) (x : Nat) : Option (List Byte) :=
  match line.get? x with
  | none => none
  | some c =>
    match store buff (x * 3 + 0) c.b with
    | none => none
    | some buff1 =>
      match store buff1 (x * 3 + 1) c.g with
      | none => none
      | some buff2 => store buff2 (x * 3 + 2) c.r

/-- The loop `for (int x = 0; x < w; ++x)` of `SaveBMP` with `n` iterations left
and loop variable `x`. -/
def SaveBMP.pixelLoop (line : List Color) : Nat → Nat → List Byte → Option (List Byte)
  | 0, _, buff => some buff
  | n + 1, x, buff =>
    match SaveBMP.putPixel line buff x with
    | none => none
    | some buff1 => SaveBMP.pixelLoop line n (x + 1) buff1

/-- The loop `for (int y = h - 1; y >= 0; --y)` of `SaveBMP` with `n` iterations
left (the loop variable is `n - 1`); `out` is what has been written so far. -/
def SaveBMP.rowLoop (image : Image) (w : Int) :
    Nat → List Byte → List Byte → Option (List Byte)
  | 0, _, out => some out
  | y + 1, buff, out =>
    match image.GetLine y with
    | none => none
    | some line =>
      match SaveBMP.pixelLoop line w.toNat 0 buff with
      | none => none
      | some buff1 =>
        match fillZero buff1 (w * 3) with
        | none => none
        | some buff2 => SaveBMP.rowLoop image w y buff2 (out ++ buff2)

/-- The function `SaveBMP`: the bytes written to the file, in order, when the
function runs to its `return`; `none` when it does not (the row buffer cannot
be created or is indexed outside its bounds). -/
def SaveBMP (image : Image) : Option (List Byte) :=
  let BMPStride : Int := GetBMPStride image.GetWidth
  let image_size : Nat := wrapUInt32 (wrapInt32 (BMPStride * image.GetHeight))
  let DPI_300 : Int := 11811
  let off_bits : Nat := (sizeofBitmapFileHeader + sizeofBitmapInfoHeader) % 4294967296
  let file_header : BitmapFileHeader :=
    { bf_type := 0x4d42
      bf_size := (off_bits + image_size) % 4294967296
      bf_reserved_1 := 0
      bf_reserved_2 := 0
      bf_off_bits := off_bits }
  let out : List Byte := file_header.toBytes
  let info_header : BitmapInfoHeader :=
    { bi_size := sizeofBitmapInfoHeader
      bi_width := image.GetWidth
      bi_height := image.GetHeight
      bi_planes := 1
      bi_bit_count := 24
      bi_compression := 0
      bi_size_image := image_size
      bi_x_pels_per_meter := DPI_300
      bi_y_pels_per_meter := DPI_300
      bi_clr_used := 0
      bi_clr_important := 0x1000000 }
  let out : List Byte := out ++ info_header.toBytes
  let w : Int := image.GetWidth
  let h : Int := image.GetHeight
  if BMPStride < 0 then none
  else
    let buff : List Byte := List.replicate BMPStride.toNat 0
    SaveBMP.rowLoop image w h.toNat buff out

/-! ## LoadBMP -/

/-- How the body of `LoadBMP` can end without reaching `return result;`. -/
inductive LoadFault where
  /-- One of the `return {};` statements was taken. -/
  | invalid
  /-- The row buffer could not be created or was indexed outside its bounds. -/
  | undefined
deriving DecidableEq, Repr

/-- The body of the loop over `x` in `LoadBMP`: the three assignments to the
channels of `line[x]`. -/
def LoadBMP.getPixel (buff : List Byte) (line : List Color) (x : Nat) : Option (List Color) :=
  match buff.get? (x * 3 + 0), buff.get? (x * 3 + 1), buff.get? (x * 3 + 2), line.get? x with
  | some vb, some vg, some vr, some c =>
    let c1 : Color := { c with b := vb }
    let c2 : Color := { c1 with g := vg }
    let c3 : Color := { c2 with r := vr }
    some (line.set x c3)
  | _, _, _, _ => none

/-- The loop `for (int x = 0; x < info_header.bi_width; ++x)` of `LoadBMP` with
`n` iterations left and loop variable `x`. -/
def LoadBMP.pixelLoop (buff : List Byte) : Nat → Nat → List Color → Option (List Color)
  | 0, _, line => some line
  | n + 1, x, line =>
    match LoadBMP.getPixel buff line x with
    | none => none
    | some line1 => LoadBMP.pixelLoop buff n (x + 1) line1

/-- The loop `for (int y = info_header.bi_height - 1; y >= 0; --y)` of `LoadBMP`
with `n` iterations left (the loop variable is `n - 1`); `ifs` holds the unread
bytes of the stream. -/
def LoadBMP.rowLoop (bi_width : Int) (BMPStride : Nat) :
    Nat → List Byte → Image → Except LoadFault Image
  | 0, _, result => .ok result
  | y + 1, ifs, result =>
    match result.GetLine y with
    | none => .error .undefined
    | some line =>
      match ifsRead ifs BMPStride with
      | none => .error .invalid
      | some (buff, rest) =>
        match LoadBMP.pixelLoop buff bi_width.toNat 0 line with
        | none => .error .undefined
        | some line1 => LoadBMP.rowLoop bi_width BMPStride y rest (result.setLine y line1)

/-- The body of `LoadBMP` on a file with the bytes `file`: the populated image of
`return result;`, or the way it ended otherwise. -/
def LoadBMP.run (file : List Byte) : Except LoadFault Image :=
  let file_size : Nat := file.length
  let off_bits : Nat := (sizeofBitmapFileHeader + sizeofBitmapInfoHeader) % 4294967296
  match ifsRead file sizeofBitmapFileHeader with
  | none => .error .invalid
  | some (raw_file_header, ifs1) =>
    let file_header := BitmapFileHeader.ofBytes raw_file_header
    if file_header.bf_type ≠ 0x4d42 ∨
        file_header.bf_size ≠ file_size ∨
        file_header.bf_reserved_1 ≠ 0 ∨
        file_header.bf_reserved_2 ≠ 0 ∨
        file_header.bf_off_bits ≠ off_bits then .error .invalid
    else
      match ifsRead ifs1 sizeofBitmapInfoHeader with
      | none => .error .invalid
      | some (raw_info_header, ifs2) =>
        let info_header := BitmapInfoHeader.ofBytes raw_info_header
        if info_header.bi_size ≠ sizeofBitmapInfoHeader then .error .invalid
        else
          let result := Image.create info_header.bi_width info_header.bi_height Color.Black
          let BMPStride : Int := GetBMPStride info_header.bi_width
          if BMPStride < 0 then .error .undefined
          else
            LoadBMP.rowLoop info_header.bi_width BMPStride.toNat
              info_header.bi_height.toNat ifs2 result

/-- The function `LoadBMP`: the image it returns; the default image `Image{}`
where the source has `return {};`, and `none` where the body has no defined
result. -/
def LoadBMP (file : List Byte) : Option Image :=
  match LoadBMP.run file with
  | .ok result => some result
  | .error .invalid => some Image.empty
  | .error .undefined => none

/-! ## Test images -/

/-- A `w` x `h` image with every pixel equal to `c`. -/
def solid (w h : Nat) (c : Color) : Image :=
  ⟨w, h, List.replicate h (List.replicate w c)⟩

/-- The white pixel (255,255,255). -/
def white : Color := ⟨255, 255, 255⟩

/-- The file that `SaveBMP` writes for the 2 x 2 all-white image (70 bytes). -/
def whiteFile : List Byte := (SaveBMP (solid 2 2 white)).getD []

/-- A 3 x 2 image with six different pixels; its rows need three bytes of
padding. -/
def sampleImage : Image :=
  ⟨3, 2, [[⟨1, 2, 3⟩, ⟨4, 5, 6⟩, ⟨7, 8, 9⟩], [⟨10, 11, 12⟩, ⟨13, 14, 15⟩, ⟨16, 17, 18⟩]]⟩

/-- A 40000 x 40000 image; its encoding has 4800000054 bytes, more than `2^32`. -/
def bigImage : Image := solid 40000 40000 white

/-- A file of 58 bytes whose headers pass every check of `LoadBMP` and announce
an image of 1431655766 x 2 pixels, followed by four bytes of pixel data. -/
def overrunFile : List Byte :=
  ({ bf_type := 0x4d42, bf_size := 58, bf_reserved_1 := 0, bf_reserved_2 := 0,
     bf_off_bits := 54 } : BitmapFileHeader).toBytes
  ++ ({ bi_size := 40, bi_width := 1431655766, bi_height := 2, bi_planes := 1,
        bi_bit_count := 24, bi_compression := 0, bi_size_image := 8,
        bi_x_pels_per_meter := 11811, bi_y_pels_per_meter := 11811, bi_clr_used := 0,
        bi_clr_important := 0x1000000 } : BitmapInfoHeader).toBytes
  ++ [0, 0, 0, 0]

/-- A file of 54 bytes whose headers pass every check of `LoadBMP` and announce
an image of 715827882 x 0 pixels. -/
def wideEmptyFile : List Byte :=
  ({ bf_type := 0x4d42, bf_size := 54, bf_reserved_1 := 0, bf_reserved_2 := 0,
     bf_off_bits := 54 } : BitmapFileHeader).toBytes
  ++ ({ bi_size := 40, bi_width := 715827882, bi_height := 0, bi_planes := 1,
        bi_bit_count := 24, bi_compression := 0, bi_size_image := 0,
        bi_x_pels_per_meter := 11811, bi_y_pels_per_meter := 11811, bi_clr_used := 0,
        bi_clr_important := 0x1000000 } : BitmapInfoHeader).toBytes

/-- A file of 62 bytes: the headers of the encoded 2 x 2 white image with
`bf_size` set to 62, followed by one row of 8 bytes where two rows are
announced. -/
def shortFile : List Byte := whiteFile.take 2 ++ le32 62 ++ (whiteFile.take 62).drop 6

/-- The encoded 2 x 2 white image with every byte of the fields `bi_planes`,
`bi_bit_count`, `bi_compression` (offsets 26 to 33), `bi_x_pels_per_meter`,
`bi_y_pels_per_meter`, `bi_clr_used` and `bi_clr_important` (offsets 38 to 53)
replaced by 0x7F. -/
def lenientFile : List Byte :=
  whiteFile.take 26 ++ List.replicate 8 0x7F ++ (whiteFile.drop 34).take 4
    ++ List.replicate 16 0x7F ++ whiteFile.drop 54

/-! ## Closed forms used by the theorems -/

/-- The three bytes of a pixel in file order: blue, green, red. -/
def bgr (c : Color) : List Byte := [c.b, c.g, c.r]

/-- Closed form of one encoded row: the pixels as (b,g,r) triples, then zero bytes
up to `stride`. -/
def rowBytes (stride : Nat) (ln : List Color) : List Byte :=
  ln.flatMap bgr ++ List.replicate (stride - 3 * ln.length) 0

/-- Closed form of the encoded pixel data: the rows from the last to the first. -/
def pixelData (stride : Nat) (pixels : List (List Color)) : List Byte :=
  pixels.reverse.flatMap (rowBytes stride)

/-- The `file_header` that `SaveBMP` builds for an image of `w` x `h` pixels. -/
def savedFileHeader (w h : Int) : BitmapFileHeader :=
  { bf_type := 0x4d42
    bf_size := (54 + wrapUInt32 (GetBMPStride w * h)) % 4294967296
    bf_reserved_1 := 0
    bf_reserved_2 := 0
    bf_off_bits := 54 }

/-- The `info_header` that `SaveBMP` builds for an image of `w` x `h` pixels. -/
def savedInfoHeader (w h : Int) : BitmapInfoHeader :=
  { bi_size := 40
    bi_width := w
    bi_height := h
    bi_planes := 1
    bi_bit_count := 24
    bi_compression := 0
    bi_size_image := wrapUInt32 (GetBMPStride w * h)
    bi_x_pels_per_meter := 11811
    bi_y_pels_per_meter := 11811
    bi_clr_used := 0
    bi_clr_important := 0x1000000 }

/-- The 54 bytes of the two headers that `SaveBMP` writes. -/
def savedHeaders (w h : Int) : List Byte :=
  (savedFileHeader w h).toBytes ++ (savedInfoHeader w h).toBytes

/-- The pixel that `LoadBMP` assembles from the bytes `3x`, `3x+1`, `3x+2` of a row
buffer (blue, green, red). -/
def pixelAt (buff : List Byte) (x : Nat) : Color :=
  { r := buff.getD (x * 3 + 2) 0, g := buff.getD (x * 3 + 1) 0, b := buff.getD (x * 3 + 0) 0 }

/-- Closed form of one decoded row: the first `w` pixels of a row buffer. -/
def decodeLine (buff : List Byte) (w : Nat) : List Color :=
  (List.range w).map (pixelAt buff)

/-- Closed form of the rows decoded from a stream that holds `n` rows of `stride`
bytes, last row first; the result lists row 0 first. -/
def decodeRows (stride w : Nat) : Nat → List Byte → List (List Color)
  | 0, _ => []
  | n + 1, ifs => decodeRows stride w n (ifs.drop stride) ++ [decodeLine (ifs.take stride) w]

/-- The `file_header` that `LoadBMP` reads from a file. -/
def readFileHeader (file : List Byte) : BitmapFileHeader :=
  BitmapFileHeader.ofBytes (file.take sizeofBitmapFileHeader)

/-- The `info_header` that `LoadBMP` reads from a file. -/
def readInfoHeader (file : List Byte) : BitmapInfoHeader :=
  BitmapInfoHeader.ofBytes ((file.drop sizeofBitmapFileHeader).take sizeofBitmapInfoHeader)

/-- The checks that `LoadBMP` makes on the two headers of a file, all passed. -/
def headersValid (file : List Byte) : Prop :=
  54 ≤ file.length ∧
  (readFileHeader file).bf_type = 0x4d42 ∧
  (readFileHeader file).bf_size = file.length ∧
  (readFileHeader file).bf_reserved_1 = 0 ∧
  (readFileHeader file).bf_reserved_2 = 0 ∧
  (readFileHeader file).bf_off_bits = 54 ∧
  (readInfoHeader file).bi_size = 40

instance (file : List Byte) : Decidable (headersValid file) :=
  inferInstanceAs (Decidable (54 ≤ file.length ∧
    (readFileHeader file).bf_type = 0x4d42 ∧
    (readFileHeader file).bf_size = file.length ∧
    (readFileHeader file).bf_reserved_1 = 0 ∧
    (readFileHeader file).bf_reserved_2 = 0 ∧
    (readFileHeader file).bf_off_bits = 54 ∧
    (readInfoHeader file).bi_size = 40))

/-- Closed form of the image that `LoadBMP` returns for a file it accepts: the
width and height of the info header, the rows decoded from the bytes after the
headers. -/
def decodedImage (file : List Byte) : Image :=
  { width := (readInfoHeader file).bi_width
    height := (readInfoHeader file).bi_height
    pixels := decodeRows (GetBMPStride (readInfoHeader file).bi_width).toNat
      (readInfoHeader file).bi_width.toNat (readInfoHeader file).bi_height.toNat
      (file.drop 54) }

/-! ## Machine integers and the stride -/

theorem wrapInt32_eq (n : Int) (h1 : -2147483648 ≤ n) (h2 : n < 2147483648) :
    wrapInt32 n = n := by
  unfold wrapInt32; omega

theorem GetBMPStride_eq (w : Int) (h0 : 0 ≤ w) (h1 : w ≤ 715827881) :
    GetBMPStride w = 4 * ((3 * w + 3) / 4) := by
  unfold GetBMPStride
  simp only
  rw [wrapInt32_eq (w * 3) (by omega) (by omega), wrapInt32_eq (w * 3 + 3) (by omega) (by omega),
    Int.tdiv_eq_ediv (by omega) (by decide), wrapInt32_eq _ (by omega) (by omega)]
  omega

/-! ## The loops of `SaveBMP` -/

theorem length_flatMap_bgr (ln : List Color) : (ln.flatMap bgr).length = 3 * ln.length := by
  induction ln with
  | nil => rfl
  | cons c cs ih => simp [List.flatMap_cons, bgr, ih] ; omega

theorem store_append (pre : List Byte) (a v : Byte) (post : List Byte) (i : Nat)
    (hi : i = pre.length) : store (pre ++ a :: post) i v = some (pre ++ v :: post) := by
  subst hi
  simp [store]

theorem putPixel_eq (ln : List Color) (x : Nat) (c : Color) (hc : ln.get? x = some c)
    (pre post : List Byte) (m1 m2 m3 : Byte) (hpre : pre.length = 3 * x) :
    SaveBMP.putPixel ln (pre ++ m1 :: m2 :: m3 :: post) x = some ((pre ++ bgr c) ++ post) := by
  unfold SaveBMP.putPixel
  rw [hc]
  simp only
  rw [store_append pre m1 c.b _ _ (by omega)]
  simp only
  have h2 : pre ++ c.b :: m2 :: m3 :: post = (pre ++ [c.b]) ++ m2 :: m3 :: post := by simp
  rw [h2, store_append (pre ++ [c.b]) m2 c.g _ _ (by simp; omega)]
  simp only
  have h3 : (pre ++ [c.b]) ++ c.g :: m3 :: post = (pre ++ [c.b, c.g]) ++ m3 :: post := by simp
  rw [h3, store_append (pre ++ [c.b, c.g]) m3 c.r _ _ (by simp; omega)]
  simp [bgr]

theorem save_pixelLoop_eq (ln : List Color) :
    ∀ (n x : Nat) (pre mid post : List Byte), ln.length = x + n → pre.length = 3 * x →
      mid.length = 3 * n →
      SaveBMP.pixelLoop ln n x (pre ++ mid ++ post)
        = some (pre ++ (ln.drop x).flatMap bgr ++ post) := by
  intro n
  induction n with
  | zero =>
    intro x pre mid post hl _ hm
    have : mid = [] := List.length_eq_zero.mp (by omega)
    subst this
    have : ln.drop x = [] := List.drop_eq_nil_of_le (by omega)
    simp [SaveBMP.pixelLoop, this]
  | succ n ih =>
    intro x pre mid post hl hp hm
    match mid, hm with
    | m1 :: m2 :: m3 :: mid1, hm =>
      have hx : x < ln.length := by omega
      have hc : ln.get? x = some (ln[x]) := by simp [List.getElem?_eq_getElem hx]
      unfold SaveBMP.pixelLoop
      have e : pre ++ (m1 :: m2 :: m3 :: mid1) ++ post = pre ++ m1 :: m2 :: m3 :: (mid1 ++ post) := by
        simp
      rw [e, putPixel_eq ln x _ hc pre _ m1 m2 m3 hp]
      simp only
      have e2 : (pre ++ bgr ln[x]) ++ (mid1 ++ post) = (pre ++ bgr ln[x]) ++ mid1 ++ post := by
        simp
      rw [e2, ih (x + 1) (pre ++ bgr ln[x]) mid1 post (by omega) (by simp [bgr]; omega)
        (by simp at hm; omega)]
      rw [List.drop_eq_getElem_cons hx, List.flatMap_cons]
      simp

theorem fillZero_eq (pre post : List Byte) (start : Int) (hs : start = pre.length) :
    fillZero (pre ++ post) start = some (pre ++ List.replicate post.length 0) := by
  subst hs
  simp [fillZero]

/-- One pass of the row loop body of `SaveBMP` leaves `rowBytes` in the buffer. -/
theorem save_row_eq (ln : List Color) (w : Int) (buff : List Byte) (hw : 0 ≤ w)
    (hl : ln.length = w.toNat) (hb : 3 * w.toNat ≤ buff.length) :
    (match SaveBMP.pixelLoop ln w.toNat 0 buff with
      | none => none
      | some buff1 => fillZero buff1 (w * 3)) = some (rowBytes buff.length ln) := by
  have hsplit : buff = [] ++ buff.take (3 * w.toNat) ++ buff.drop (3 * w.toNat) := by simp
  rw [hsplit, save_pixelLoop_eq ln w.toNat 0 [] _ _ (by omega) (by simp) (by simp; omega)]
  simp only [List.drop_zero, List.nil_append]
  rw [fillZero_eq _ _ _ (by rw [length_flatMap_bgr]; omega)]
  simp [rowBytes, hl]

theorem wrapUInt32_wrapInt32 (n : Int) : wrapUInt32 (wrapInt32 n) = wrapUInt32 n := by
  unfold wrapUInt32 wrapInt32
  congr 1
  omega

theorem length_rowBytes (s : Nat) (ln : List Color) (h : 3 * ln.length ≤ s) :
    (rowBytes s ln).length = s := by
  unfold rowBytes
  rw [List.length_append, length_flatMap_bgr, List.length_replicate]
  omega

theorem pixelData_concat (s : Nat) (rows : List (List Color)) (ln : List Color) :
    pixelData s (rows ++ [ln]) = rowBytes s ln ++ pixelData s rows := by
  simp [pixelData, List.flatMap_cons]

theorem take_succ_getElem {α : Type} (l : List α) (n : Nat) (h : n < l.length) :
    l.take (n + 1) = l.take n ++ [l[n]] := by
  rw [List.take_succ, List.getElem?_eq_getElem h]
  rfl

theorem save_pixelLoop_length (ln : List Color) :
    ∀ (n x : Nat) (buff buff1 : List Byte), SaveBMP.pixelLoop ln n x buff = some buff1 →
      buff1.length = buff.length := by
  intro n
  induction n with
  | zero => intro x buff buff1 h; simp [SaveBMP.pixelLoop] at h; rw [h]
  | succ n ih =>
    intro x buff buff1 h
    unfold SaveBMP.pixelLoop at h
    cases hp : SaveBMP.putPixel ln buff x with
    | none => rw [hp] at h; cases h
    | some b1 =>
      rw [hp] at h
      simp only at h
      have hl : b1.length = buff.length := by
        unfold SaveBMP.putPixel at hp
        cases hc : ln.get? x with
        | none => rw [hc] at hp; cases hp
        | some c =>
          rw [hc] at hp
          simp only [store] at hp
          split at hp
          · cases hp
          · rename_i b2 hb2
            split at hb2
            · split at hp
              · cases hp
              · rename_i b3 hb3
                split at hb3
                · split at hp
                  · cases hb2; cases hb3; cases hp; simp
                  · cases hp
                · cases hb3
            · cases hb2
      rw [ih (x + 1) b1 buff1 h, hl]

/-- The row loop of `SaveBMP` appends the rows `n-1, ..., 0` to what was written. -/
theorem save_rowLoop_eq (image : Image) (w : Int) (s : Nat) (hw : 0 ≤ w)
    (hrow : ∀ ln ∈ image.pixels, ln.length = w.toNat) (hs : 3 * w.toNat ≤ s) :
    ∀ (n : Nat) (buff out : List Byte), n ≤ image.pixels.length → buff.length = s →
      SaveBMP.rowLoop image w n buff out
        = some (out ++ pixelData s (image.pixels.take n)) := by
  intro n
  induction n with
  | zero => intro buff out _ _; simp [SaveBMP.rowLoop, pixelData]
  | succ y ih =>
    intro buff out hn hb
    have hy : y < image.pixels.length := by omega
    have hmem : image.pixels[y] ∈ image.pixels := List.getElem_mem hy
    have hlen := hrow _ hmem
    have hrw := save_row_eq image.pixels[y] w buff hw hlen (by omega)
    unfold SaveBMP.rowLoop
    simp only [Image.GetLine, List.getElem?_eq_getElem hy]
    cases hp : SaveBMP.pixelLoop image.pixels[y] w.toNat 0 buff with
    | none => rw [hp] at hrw; cases hrw
    | some b1 =>
      rw [hp] at hrw
      simp only at hrw ⊢
      rw [hrw]
      simp only
      rw [ih _ _ (by omega) (by rw [length_rowBytes _ _ (by omega)]; exact hb)]
      rw [hb, take_succ_getElem _ _ hy, pixelData_concat, List.append_assoc]

/-! ## The closed form of `SaveBMP` -/

theorem SaveBMP_unfold (image : Image) :
    SaveBMP image = if GetBMPStride image.width < 0 then none
      else SaveBMP.rowLoop image image.width image.height.toNat
        (List.replicate (GetBMPStride image.width).toNat 0)
        (savedHeaders image.width image.height) := by
  unfold SaveBMP
  simp only [wrapUInt32_wrapInt32, Image.GetWidth, Image.GetHeight]
  rfl

/-- On a well-formed image whose stride is computed without overflow `SaveBMP`
writes the two headers followed by the rows, last row first. -/
theorem SaveBMP_eq (image : Image) (hwf : image.WF)
    (hs0 : 0 ≤ GetBMPStride image.width)
    (h3 : image.height = 0 ∨ 3 * image.width ≤ GetBMPStride image.width) :
    SaveBMP image = some (savedHeaders image.width image.height
      ++ pixelData (GetBMPStride image.width).toNat image.pixels) := by
  obtain ⟨hw0, _, hh0, _, hlen, hrow⟩ := hwf
  rw [SaveBMP_unfold, if_neg (by omega)]
  rcases h3 with h3 | h3
  · have : image.pixels = [] := List.length_eq_zero.mp (by rw [hlen, h3]; rfl)
    rw [h3, this]
    simp [SaveBMP.rowLoop, pixelData]
  · rw [save_rowLoop_eq image image.width (GetBMPStride image.width).toNat hw0 hrow (by omega)
      image.height.toNat _ _ (by omega) (by simp)]
    rw [← hlen, List.take_length]

/-- When `SaveBMP` runs to its end, the stride was usable. -/
theorem SaveBMP_some (image : Image) (hwf : image.WF) (bytes : List Byte)
    (h : SaveBMP image = some bytes) :
    0 ≤ GetBMPStride image.width ∧
      (image.height = 0 ∨ 3 * image.width ≤ GetBMPStride image.width) := by
  obtain ⟨hw0, _, hh0, _, hlen, hrow⟩ := hwf
  rw [SaveBMP_unfold] at h
  by_cases hneg : GetBMPStride image.width < 0
  · rw [if_pos hneg] at h; cases h
  · rw [if_neg hneg] at h
    refine ⟨by omega, ?_⟩
    by_cases hz : image.height = 0
    · exact Or.inl hz
    · right
      obtain ⟨y, hy⟩ : ∃ y, image.height.toNat = y + 1 := ⟨image.height.toNat - 1, by omega⟩
      rw [hy] at h
      unfold SaveBMP.rowLoop at h
      split at h
      · cases h
      · rename_i ln _
        split at h
        · cases h
        · rename_i b1 hb1
          have hl := save_pixelLoop_length ln _ _ _ _ hb1
          split at h
          · cases h
          · rename_i b2 hb2
            unfold fillZero at hb2
            split at hb2
            · rename_i hc
              rw [hl, List.length_replicate] at hc
              omega
            · cases hb2

theorem SaveBMP_spec (image : Image) (hwf : image.WF) (bytes : List Byte)
    (h : SaveBMP image = some bytes) :
    bytes = savedHeaders image.width image.height
      ++ pixelData (GetBMPStride image.width).toNat image.pixels := by
  obtain ⟨h1, h2⟩ := SaveBMP_some image hwf bytes h
  rw [SaveBMP_eq image hwf h1 h2] at h
  exact (Option.some.inj h).symm

/-- No `int` is a multiple of 4 that reaches 3 * 715827882: the stride of this
width does not fit the return type of `GetBMPStride`. -/
theorem stride_715827882_unrepresentable (s : Int) (h : s < 2147483648) (h4 : 4 ∣ s) :
    s < 3 * 715827882 := by
  omega

theorem stride_ok (w : Int) (h0 : 0 ≤ w) (h1 : w ≤ 715827881) :
    0 ≤ GetBMPStride w ∧ 3 * w ≤ GetBMPStride w := by
  rw [GetBMPStride_eq w h0 h1]; omega

/-! ## The headers -/

theorem byteOf_val (n : Nat) : (byteOf n).val = n % 256 := rfl

theorem length_fileHeader_toBytes (h : BitmapFileHeader) : h.toBytes.length = 14 := rfl

theorem length_infoHeader_toBytes (h : BitmapInfoHeader) : h.toBytes.length = 40 := rfl

theorem length_savedHeaders (w h : Int) : (savedHeaders w h).length = 54 := rfl

theorem wrapUInt32_lt (n : Int) : wrapUInt32 n < 4294967296 := by
  unfold wrapUInt32; omega

theorem getI32_le32s (n : Int) (h1 : -2147483648 ≤ n) (h2 : n < 2147483648)
    (a b c d : Nat) (ha : a = wrapUInt32 n % 256) (hb : b = wrapUInt32 n / 256 % 256)
    (hc : c = wrapUInt32 n / 65536 % 256) (hd : d = wrapUInt32 n / 16777216 % 256) :
    wrapInt32 ((a + 256 * b + 65536 * c + 16777216 * d : Nat) : Int) = n := by
  subst ha hb hc hd
  have hlt := wrapUInt32_lt n
  have e : wrapUInt32 n % 256 + 256 * (wrapUInt32 n / 256 % 256)
      + 65536 * (wrapUInt32 n / 65536 % 256) + 16777216 * (wrapUInt32 n / 16777216 % 256)
      = wrapUInt32 n := by omega
  rw [e]
  unfold wrapUInt32 wrapInt32
  omega

/-- Reading back the object representation of a file header whose fields fit
their types gives the header. -/
theorem fileHeader_ofBytes_toBytes (h : BitmapFileHeader) (h1 : h.bf_type < 65536)
    (h2 : h.bf_size < 4294967296) (h3 : h.bf_reserved_1 < 65536)
    (h4 : h.bf_reserved_2 < 65536) (h5 : h.bf_off_bits < 4294967296) :
    BitmapFileHeader.ofBytes h.toBytes = h := by
  cases h
  simp only [BitmapFileHeader.ofBytes, BitmapFileHeader.toBytes, le16, le32, getU16, getU32,
    List.cons_append, List.nil_append, List.getD_cons_zero, List.getD_cons_succ, byteOf_val,
    BitmapFileHeader.mk.injEq] at *
  omega



theorem u16_eq (n : Nat) (h : n < 65536) : n % 256 + 256 * (n / 256 % 256) = n := by omega

theorem u32_eq (n : Nat) (h : n < 4294967296) :
    n % 256 + 256 * (n / 256 % 256) + 65536 * (n / 65536 % 256)
      + 16777216 * (n / 16777216 % 256) = n := by omega

/-- Reading back the object representation of an info header whose fields fit
their types gives the header. -/
theorem infoHeader_ofBytes_toBytes (h : BitmapInfoHeader) (h1 : h.bi_size < 4294967296)
    (h2 : -2147483648 ≤ h.bi_width ∧ h.bi_width < 2147483648)
    (h3 : -2147483648 ≤ h.bi_height ∧ h.bi_height < 2147483648)
    (h4 : h.bi_planes < 65536) (h5 : h.bi_bit_count < 65536)
    (h6 : h.bi_compression < 4294967296) (h7 : h.bi_size_image < 4294967296)
    (h8 : -2147483648 ≤ h.bi_x_pels_per_meter ∧ h.bi_x_pels_per_meter < 2147483648)
    (h9 : -2147483648 ≤ h.bi_y_pels_per_meter ∧ h.bi_y_pels_per_meter < 2147483648)
    (h10 : -2147483648 ≤ h.bi_clr_used ∧ h.bi_clr_used < 2147483648)
    (h11 : -2147483648 ≤ h.bi_clr_important ∧ h.bi_clr_important < 2147483648) :
    BitmapInfoHeader.ofBytes h.toBytes = h := by
  cases h
  simp only [BitmapInfoHeader.ofBytes, BitmapInfoHeader.toBytes, le16, le32, le32s, getU16,
    getU32, getI32, List.cons_append, List.nil_append, List.getD_cons_zero, List.getD_cons_succ,
    byteOf_val, BitmapInfoHeader.mk.injEq] at *
  refine ⟨u32_eq _ h1, getI32_le32s _ h2.1 h2.2 _ _ _ _ rfl rfl rfl rfl,
    getI32_le32s _ h3.1 h3.2 _ _ _ _ rfl rfl rfl rfl, u16_eq _ h4, u16_eq _ h5, u32_eq _ h6,
    u32_eq _ h7, getI32_le32s _ h8.1 h8.2 _ _ _ _ rfl rfl rfl rfl,
    getI32_le32s _ h9.1 h9.2 _ _ _ _ rfl rfl rfl rfl,
    getI32_le32s _ h10.1 h10.2 _ _ _ _ rfl rfl rfl rfl,
    getI32_le32s _ h11.1 h11.2 _ _ _ _ rfl rfl rfl rfl⟩

theorem savedFileHeader_parse (w h : Int) :
    BitmapFileHeader.ofBytes (savedFileHeader w h).toBytes = savedFileHeader w h := by
  apply fileHeader_ofBytes_toBytes <;> simp only [savedFileHeader] <;> omega

theorem savedInfoHeader_parse (w h : Int) (hw : -2147483648 ≤ w ∧ w < 2147483648)
    (hh : -2147483648 ≤ h ∧ h < 2147483648) :
    BitmapInfoHeader.ofBytes (savedInfoHeader w h).toBytes = savedInfoHeader w h := by
  have := wrapUInt32_lt (GetBMPStride w * h)
  apply infoHeader_ofBytes_toBytes <;> simp only [savedInfoHeader] <;> omega

theorem take_savedHeaders (w h : Int) (rest : List Byte) :
    (savedHeaders w h ++ rest).take 14 = (savedFileHeader w h).toBytes := by
  unfold savedHeaders
  rw [List.append_assoc]
  exact List.take_left' (length_fileHeader_toBytes _)

theorem drop_savedHeaders (w h : Int) (rest : List Byte) :
    (savedHeaders w h ++ rest).drop 14 = (savedInfoHeader w h).toBytes ++ rest := by
  unfold savedHeaders
  rw [List.append_assoc]
  exact List.drop_left' (length_fileHeader_toBytes _)

/-! ## The loops of `LoadBMP` -/

theorem load_getPixel_eq (buff : List Byte) (pre post : List Color) (c : Color) (x : Nat)
    (hpre : pre.length = x) (hb : x * 3 + 2 < buff.length) :
    LoadBMP.getPixel buff (pre ++ c :: post) x = some (pre ++ pixelAt buff x :: post) := by
  subst hpre
  have h0 : buff.get? (pre.length * 3 + 0) = some (buff.getD (pre.length * 3 + 0) 0) := by
    simp [List.getD, List.getElem?_eq_getElem (show pre.length * 3 < buff.length by omega)]
  have h1 : buff.get? (pre.length * 3 + 1) = some (buff.getD (pre.length * 3 + 1) 0) := by
    simp [List.getD, List.getElem?_eq_getElem (show pre.length * 3 + 1 < buff.length by omega)]
  have h2 : buff.get? (pre.length * 3 + 2) = some (buff.getD (pre.length * 3 + 2) 0) := by
    simp [List.getD, List.getElem?_eq_getElem (show pre.length * 3 + 2 < buff.length by omega)]
  have h3 : (pre ++ c :: post).get? pre.length = some c := by
    rw [List.get?_eq_getElem?, List.getElem?_append_right (Nat.le_refl _)]
    simp
  unfold LoadBMP.getPixel
  rw [h0, h1, h2, h3]
  simp [pixelAt]

theorem load_pixelLoop_eq (buff : List Byte) :
    ∀ (n x : Nat) (pre post : List Color), pre.length = x → n ≤ post.length →
      3 * (x + n) ≤ buff.length →
      LoadBMP.pixelLoop buff n x (pre ++ post)
        = some (pre ++ (List.range' x n).map (pixelAt buff) ++ post.drop n) := by
  intro n
  induction n with
  | zero => intro x pre post _ _ _; simp [LoadBMP.pixelLoop]
  | succ n ih =>
    intro x pre post hpre hn hb
    match post, hn with
    | c :: post1, hn =>
      unfold LoadBMP.pixelLoop
      rw [load_getPixel_eq buff pre post1 c x hpre (by omega)]
      simp only
      have e : pre ++ pixelAt buff x :: post1 = (pre ++ [pixelAt buff x]) ++ post1 := by simp
      rw [e, ih (x + 1) (pre ++ [pixelAt buff x]) post1 (by simp; omega)
        (by simp at hn; omega) (by omega)]
      simp [List.range'_succ]

/-- The pixel loop of `LoadBMP` replaces a row of `w` pixels by the pixels decoded
from the buffer. -/
theorem load_pixelLoop_row (buff : List Byte) (w : Nat) (ln : List Color)
    (hl : ln.length = w) (hb : 3 * w ≤ buff.length) :
    LoadBMP.pixelLoop buff w 0 ln = some (decodeLine buff w) := by
  have := load_pixelLoop_eq buff w 0 [] ln rfl (by omega) (by omega)
  simp only [List.nil_append] at this
  rw [this, List.drop_eq_nil_of_le (by omega)]
  simp [decodeLine, List.range_eq_range']

theorem drop_set_self {α : Type} (l : List α) (y : Nat) (a : α) (h : y < l.length) :
    (l.set y a).drop y = a :: l.drop (y + 1) := by
  rw [List.set_eq_take_append_cons_drop, if_pos h]
  exact List.drop_left' (by rw [List.length_take]; omega)

theorem length_decodeLine (buff : List Byte) (w : Nat) : (decodeLine buff w).length = w := by
  simp [decodeLine]

theorem ifsRead_eq (ifs : List Byte) (n : Nat) (h : n ≤ ifs.length) :
    ifsRead ifs n = some (ifs.take n, ifs.drop n) := by
  simp [ifsRead, h]

/-- The row loop of `LoadBMP` fills the rows `n-1, ..., 0` of the result from the
stream when the stream holds `n` rows. -/
theorem load_rowLoop_eq (w : Int) (s : Nat) (hs : 3 * w.toNat ≤ s) :
    ∀ (n : Nat) (ifs : List Byte) (result : Image), n * s ≤ ifs.length →
      n ≤ result.pixels.length → (∀ ln ∈ result.pixels, ln.length = w.toNat) →
      LoadBMP.rowLoop w s n ifs result
        = .ok { result with pixels := decodeRows s w.toNat n ifs ++ result.pixels.drop n } := by
  intro n
  induction n with
  | zero => intro ifs result _ _ _; simp [LoadBMP.rowLoop, decodeRows]
  | succ y ih =>
    intro ifs result hifs hn hrow
    have hy : y < result.pixels.length := by omega
    have hle : s ≤ ifs.length := by
      have : (y + 1) * s = y * s + s := by ring
      omega
    unfold LoadBMP.rowLoop
    simp only [Image.GetLine, List.getElem?_eq_getElem hy, ifsRead_eq ifs s hle]
    rw [load_pixelLoop_row (ifs.take s) w.toNat _ (hrow _ (List.getElem_mem hy))
      (by rw [List.length_take]; omega)]
    simp only
    rw [ih (ifs.drop s) _ (by
        have : (y + 1) * s = y * s + s := by ring
        rw [List.length_drop]; omega)
      (by simp [Image.setLine]; omega)
      (by
        intro ln hln
        simp only [Image.setLine] at hln
        rcases List.mem_or_eq_of_mem_set hln with h | h
        · exact hrow _ h
        · rw [h, length_decodeLine])]
    simp only [Image.setLine, decodeRows, drop_set_self _ _ _ hy, List.append_assoc,
      List.singleton_append]

theorem pixelAt_cons3 (a b c : Byte) (t : List Byte) (x : Nat) :
    pixelAt (a :: b :: c :: t) (x + 1) = pixelAt t x := by
  have e0 : (x + 1) * 3 + 0 = (x * 3 + 0) + 1 + 1 + 1 := by omega
  have e1 : (x + 1) * 3 + 1 = (x * 3 + 1) + 1 + 1 + 1 := by omega
  have e2 : (x + 1) * 3 + 2 = (x * 3 + 2) + 1 + 1 + 1 := by omega
  unfold pixelAt
  rw [e0, e1, e2]
  simp only [List.getD_cons_succ]
  rfl

theorem decodeLine_flatMap (ln : List Color) (rest : List Byte) :
    decodeLine (ln.flatMap bgr ++ rest) ln.length = ln := by
  induction ln with
  | nil => simp [decodeLine]
  | cons c cs ih =>
    have e : decodeLine (cs.flatMap bgr ++ rest) cs.length = cs := ih
    unfold decodeLine at e ⊢
    rw [List.length_cons, List.range_succ_eq_map, List.map_cons, List.map_map]
    have hf : (pixelAt ((c :: cs).flatMap bgr ++ rest)) ∘ Nat.succ
        = pixelAt (cs.flatMap bgr ++ rest) := by
      funext x
      simp only [Function.comp, List.flatMap_cons, bgr, List.cons_append, List.nil_append]
      exact pixelAt_cons3 _ _ _ _ x
    rw [hf, e]
    simp [pixelAt, List.flatMap_cons, bgr]

/-- Decoding an encoded row gives the row back. -/
theorem decodeLine_rowBytes (s : Nat) (ln : List Color) :
    decodeLine (rowBytes s ln) ln.length = ln := by
  unfold rowBytes
  exact decodeLine_flatMap ln _

/-- Decoding the encoded pixel data gives the rows back, whatever follows them in
the stream. -/
theorem decodeRows_pixelData (s w : Nat) (hs : 3 * w ≤ s) (rows : List (List Color)) :
    ∀ (rest : List Byte), (∀ ln ∈ rows, ln.length = w) →
      decodeRows s w rows.length (pixelData s rows ++ rest) = rows := by
  induction rows using List.reverseRecOn with
  | nil => intro rest _; simp [decodeRows]
  | append_singleton init last ih =>
    intro rest hrow
    have hlast : last.length = w := hrow last (by simp)
    have hlen : (rowBytes s last).length = s := length_rowBytes s last (by omega)
    rw [List.length_append, List.length_singleton, pixelData_concat, List.append_assoc]
    unfold decodeRows
    rw [List.take_left' hlen, List.drop_left' hlen,
      ih rest (fun ln h => hrow ln (by simp [h])), ← hlast, decodeLine_rowBytes]

/-! ## The body of `LoadBMP` -/

/-- The body of `LoadBMP` as a cascade of its checks. -/
theorem LoadBMP_run_eq (file : List Byte) :
    LoadBMP.run file =
      if file.length < 14 then .error .invalid
      else if (readFileHeader file).bf_type ≠ 0x4d42 ∨
          (readFileHeader file).bf_size ≠ file.length ∨
          (readFileHeader file).bf_reserved_1 ≠ 0 ∨
          (readFileHeader file).bf_reserved_2 ≠ 0 ∨
          (readFileHeader file).bf_off_bits ≠ 54 then .error .invalid
      else if file.length < 54 then .error .invalid
      else if (readInfoHeader file).bi_size ≠ 40 then .error .invalid
      else if GetBMPStride (readInfoHeader file).bi_width < 0 then .error .undefined
      else LoadBMP.rowLoop (readInfoHeader file).bi_width
        (GetBMPStride (readInfoHeader file).bi_width).toNat
        (readInfoHeader file).bi_height.toNat (file.drop 54)
        (Image.create (readInfoHeader file).bi_width (readInfoHeader file).bi_height
          Color.Black) := by
  unfold LoadBMP.run
  by_cases h14 : file.length < 14
  · have : ifsRead file sizeofBitmapFileHeader = none := by
      simp [ifsRead, sizeofBitmapFileHeader]; omega
    rw [this, if_pos h14]
  · rw [if_neg h14, ifsRead_eq file sizeofBitmapFileHeader (by simp [sizeofBitmapFileHeader]; omega)]
    simp only
    have hoff : (sizeofBitmapFileHeader + sizeofBitmapInfoHeader) % 4294967296 = 54 := rfl
    rw [hoff]
    change (if (readFileHeader file).bf_type ≠ 0x4d42 ∨
          (readFileHeader file).bf_size ≠ file.length ∨
          (readFileHeader file).bf_reserved_1 ≠ 0 ∨
          (readFileHeader file).bf_reserved_2 ≠ 0 ∨
          (readFileHeader file).bf_off_bits ≠ 54 then _ else _) = _
    split
    · rfl
    · by_cases h54 : file.length < 54
      · have : ifsRead (List.drop sizeofBitmapFileHeader file) sizeofBitmapInfoHeader = none := by
          simp [ifsRead, sizeofBitmapFileHeader, sizeofBitmapInfoHeader]; omega
        rw [this, if_pos h54]
      · rw [if_neg h54, ifsRead_eq _ sizeofBitmapInfoHeader
          (by simp [sizeofBitmapFileHeader, sizeofBitmapInfoHeader]; omega)]
        simp only
        have hd : List.drop sizeofBitmapInfoHeader (List.drop sizeofBitmapFileHeader file)
            = file.drop 54 := by
          rw [List.drop_drop]; rfl
        rw [hd]
        rfl

/-! ## Loading what `SaveBMP` writes -/

theorem length_pixelData (s : Nat) (rows : List (List Color))
    (h : ∀ ln ∈ rows, 3 * ln.length ≤ s) : (pixelData s rows).length = rows.length * s := by
  induction rows using List.reverseRecOn with
  | nil => simp [pixelData]
  | append_singleton init last ih =>
    rw [pixelData_concat, List.length_append, length_rowBytes s last (h last (by simp)),
      ih (fun ln hl => h ln (by simp [hl])), List.length_append, List.length_singleton]
    ring

theorem readFileHeader_saved (w h : Int) (rest : List Byte) :
    readFileHeader (savedHeaders w h ++ rest) = savedFileHeader w h := by
  unfold readFileHeader
  rw [show sizeofBitmapFileHeader = 14 from rfl, take_savedHeaders, savedFileHeader_parse]

theorem readInfoHeader_saved (w h : Int) (rest : List Byte)
    (hw : -2147483648 ≤ w ∧ w < 2147483648) (hh : -2147483648 ≤ h ∧ h < 2147483648) :
    readInfoHeader (savedHeaders w h ++ rest) = savedInfoHeader w h := by
  unfold readInfoHeader
  rw [show sizeofBitmapFileHeader = 14 from rfl, show sizeofBitmapInfoHeader = 40 from rfl,
    drop_savedHeaders, List.take_left' (length_infoHeader_toBytes _),
    savedInfoHeader_parse w h hw hh]

theorem drop54_savedHeaders (w h : Int) (rest : List Byte) :
    (savedHeaders w h ++ rest).drop 54 = rest :=
  List.drop_left' (length_savedHeaders w h)

/-- The size that `SaveBMP` stores in `bf_size` is the number of bytes it writes
as long as that number fits 32 bits. -/
theorem saved_bf_size (stride h : Int) (hs : 0 ≤ stride) (hh : 0 ≤ h)
    (hsz : 54 + stride * h < 4294967296) :
    (54 + wrapUInt32 (stride * h)) % 4294967296 = 54 + h.toNat * stride.toNat := by
  obtain ⟨s, rfl⟩ := Int.eq_ofNat_of_zero_le hs
  obtain ⟨n, rfl⟩ := Int.eq_ofNat_of_zero_le hh
  have e : ((s : Int) * (n : Int)) = ((s * n : Nat) : Int) := by push_cast; rfl
  rw [e] at hsz ⊢
  simp only [Int.toNat_ofNat]
  rw [Nat.mul_comm n s]
  generalize s * n = p at hsz ⊢
  unfold wrapUInt32
  omega

/-! ## Facts shared by the theorems on `SaveBMP` -/

theorem solid_WF (w h : Nat) (c : Color) (hw : w < 2147483648) (hh : h < 2147483648) :
    (solid w h c).WF := by
  refine ⟨by simp [solid], by simp [solid]; omega, by simp [solid], by simp [solid]; omega,
    by simp [solid], ?_⟩
  intro ln hln
  simp only [solid] at hln ⊢
  rw [List.eq_of_mem_replicate hln, List.length_replicate, Int.toNat_ofNat]

/-- The number of bytes that `SaveBMP` writes when it runs to its end. -/
theorem length_saved (image : Image) (hwf : image.WF) (hs0 : 0 ≤ GetBMPStride image.width)
    (h3 : image.height = 0 ∨ 3 * image.width ≤ GetBMPStride image.width) :
    (savedHeaders image.width image.height
      ++ pixelData (GetBMPStride image.width).toNat image.pixels).length
      = 54 + image.height.toNat * (GetBMPStride image.width).toNat := by
  obtain ⟨hw0, hw1, hh0, hh1, hlen, hrow⟩ := hwf
  rw [List.length_append, length_savedHeaders]
  rcases h3 with h3 | h3
  · have : image.pixels = [] := List.length_eq_zero.mp (by rw [hlen, h3]; rfl)
    rw [this, h3]
    simp [pixelData]
  · rw [length_pixelData _ _ (by intro ln hln; rw [hrow ln hln]; omega), hlen]

theorem toNat_mul_cast (a b : Int) (ha : 0 ≤ a) (hb : 0 ≤ b) :
    ((b.toNat * a.toNat : Nat) : Int) = a * b := by
  rw [Nat.cast_mul, Int.toNat_of_nonneg ha, Int.toNat_of_nonneg hb, Int.mul_comm]

/-- Loading what `SaveBMP` writes for a well-formed image gives the image back,
provided the file size fits 32 bits. -/
theorem LoadBMP_run_saved (image : Image) (hwf : image.WF)
    (hs0 : 0 ≤ GetBMPStride image.width)
    (h3 : image.height = 0 ∨ 3 * image.width ≤ GetBMPStride image.width)
    (hsz : 54 + GetBMPStride image.width * image.height < 4294967296) :
    LoadBMP.run (savedHeaders image.width image.height
      ++ pixelData (GetBMPStride image.width).toNat image.pixels) = .ok image := by
  have hfl := length_saved image hwf hs0 h3
  obtain ⟨hw0, hw1, hh0, hh1, hlen, hrow⟩ := hwf
  rw [LoadBMP_run_eq, readFileHeader_saved,
    readInfoHeader_saved _ _ _ ⟨by omega, hw1⟩ ⟨by omega, hh1⟩, drop54_savedHeaders, hfl]
  rw [if_neg (by omega)]
  have hbf : (savedFileHeader image.width image.height).bf_size
      = 54 + image.height.toNat * (GetBMPStride image.width).toNat :=
    saved_bf_size _ _ hs0 hh0 hsz
  rw [if_neg (by
    rw [hbf]
    simp [savedFileHeader])]
  rw [if_neg (by omega), if_neg (by simp [savedInfoHeader])]
  simp only [savedInfoHeader]
  rw [if_neg (by omega)]
  rcases h3 with h3 | h3
  · have hnil : image.pixels = [] := List.length_eq_zero.mp (by rw [hlen, h3]; rfl)
    cases image
    simp only at hnil h3
    simp [LoadBMP.rowLoop, Image.create, hnil, h3]
  · have hrow3 : ∀ ln ∈ image.pixels, 3 * ln.length ≤ (GetBMPStride image.width).toNat := by
      intro ln hln; rw [hrow ln hln]; omega
    have hpd := length_pixelData _ image.pixels hrow3
    rw [load_rowLoop_eq image.width _ (by omega) image.height.toNat _ _
      (by rw [hpd, hlen]) (by simp [Image.create])
      (by
        intro ln hln
        simp only [Image.create] at hln
        rw [List.eq_of_mem_replicate hln, List.length_replicate])]
    have hdec := decodeRows_pixelData (GetBMPStride image.width).toNat image.width.toNat
      (by omega) image.pixels [] hrow
    rw [List.append_nil, hlen] at hdec
    rw [hdec]
    cases image
    simp [Image.create]

/-- A file that `SaveBMP` writes and that has `2^32` bytes or more is rejected by
`LoadBMP`. -/
theorem LoadBMP_run_saved_big (image : Image) (hwf : image.WF)
    (hs0 : 0 ≤ GetBMPStride image.width)
    (h3 : image.height = 0 ∨ 3 * image.width ≤ GetBMPStride image.width)
    (hsz : 4294967296 ≤ 54 + GetBMPStride image.width * image.height) :
    LoadBMP.run (savedHeaders image.width image.height
      ++ pixelData (GetBMPStride image.width).toNat image.pixels) = .error .invalid := by
  have hfl := length_saved image hwf hs0 h3
  have hc := toNat_mul_cast _ _ hs0 hwf.2.2.1
  rw [LoadBMP_run_eq, readFileHeader_saved, hfl]
  rw [if_neg (by omega)]
  have hlt : (savedFileHeader image.width image.height).bf_size < 4294967296 :=
    Nat.mod_lt _ (by decide)
  rw [if_pos (by
    right; left
    omega)]

theorem LoadBMP_of_invalid (file : List Byte) (h : LoadBMP.run file = .error .invalid) :
    LoadBMP file = some Image.empty := by
  unfold LoadBMP; rw [h]

theorem LoadBMP_of_ok (file : List Byte) (image : Image) (h : LoadBMP.run file = .ok image) :
    LoadBMP file = some image := by
  unfold LoadBMP; rw [h]

theorem getD_take {α : Type} (l : List α) (n i : Nat) (d : α) (h : i < n) :
    (l.take n).getD i d = l.getD i d := by
  simp [List.getD, List.getElem?_take, h]

theorem readFileHeader_fields (file : List Byte) :
    (readFileHeader file).bf_type = getU16 file 0 ∧
    (readFileHeader file).bf_size = getU32 file 2 ∧
    (readFileHeader file).bf_reserved_1 = getU16 file 6 ∧
    (readFileHeader file).bf_reserved_2 = getU16 file 8 ∧
    (readFileHeader file).bf_off_bits = getU32 file 10 := by
  simp only [readFileHeader, BitmapFileHeader.ofBytes, getU16, getU32, sizeofBitmapFileHeader]
  refine ⟨?_, ?_, ?_, ?_, ?_⟩ <;>
    simp only [getD_take _ 14 _ _ (show 0 < 14 by decide),
      getD_take _ 14 _ _ (show 0 + 1 < 14 by decide),
      getD_take _ 14 _ _ (show 2 < 14 by decide), getD_take _ 14 _ _ (show 2 + 1 < 14 by decide),
      getD_take _ 14 _ _ (show 2 + 2 < 14 by decide),
      getD_take _ 14 _ _ (show 2 + 3 < 14 by decide),
      getD_take _ 14 _ _ (show 6 < 14 by decide), getD_take _ 14 _ _ (show 6 + 1 < 14 by decide),
      getD_take _ 14 _ _ (show 8 < 14 by decide), getD_take _ 14 _ _ (show 8 + 1 < 14 by decide),
      getD_take _ 14 _ _ (show 10 < 14 by decide),
      getD_take _ 14 _ _ (show 10 + 1 < 14 by decide),
      getD_take _ 14 _ _ (show 10 + 2 < 14 by decide),
      getD_take _ 14 _ _ (show 10 + 3 < 14 by decide)]

/-- Any failed check on the file header makes `LoadBMP` take `return {}`. -/
theorem LoadBMP_run_bad_fileHeader (file : List Byte)
    (h : getU16 file 0 ≠ 0x4d42 ∨ getU32 file 2 ≠ file.length ∨ getU16 file 6 ≠ 0 ∨
      getU16 file 8 ≠ 0 ∨ getU32 file 10 ≠ 54) :
    LoadBMP.run file = .error .invalid := by
  obtain ⟨e1, e2, e3, e4, e5⟩ := readFileHeader_fields file
  rw [LoadBMP_run_eq, e1, e2, e3, e4, e5]
  by_cases h14 : file.length < 14
  · rw [if_pos h14]
  · rw [if_neg h14, if_pos h]

/-! ## The layout of the rows -/

theorem slice_flatMap (s : Nat) (f : List Color → List Byte) :
    ∀ (L : List (List Color)), (∀ l ∈ L, (f l).length = s) → ∀ (r : Nat) (l : List Color),
      L.get? r = some l → ((L.flatMap f).drop (r * s)).take s = f l := by
  intro L
  induction L with
  | nil => intro _ r l h; simp at h
  | cons a L ih =>
    intro hL r l h
    have ha : (f a).length = s := hL a (by simp)
    cases r with
    | zero =>
      simp only [List.get?_cons_zero, Option.some.injEq] at h
      subst h
      rw [List.flatMap_cons, Nat.zero_mul, List.drop_zero]
      exact List.take_left' ha
    | succ r =>
      simp only [List.get?_cons_succ] at h
      have e : (r + 1) * s = (f a).length + r * s := by rw [ha]; ring
      rw [List.flatMap_cons, e, List.drop_append]
      exact ih (fun l hl => hL l (by simp [hl])) r l h

/-- In the encoded pixel data row `y` of `rows` is the slice of `s` bytes at offset
`(rows.length - 1 - y) * s`. -/
theorem slice_pixelData (s : Nat) (rows : List (List Color))
    (h : ∀ ln ∈ rows, 3 * ln.length ≤ s) (y : Nat) (ln : List Color)
    (hy : rows.get? y = some ln) :
    ((pixelData s rows).drop ((rows.length - 1 - y) * s)).take s = rowBytes s ln := by
  have hlt : y < rows.length := by
    rw [List.get?_eq_getElem?] at hy
    exact (List.getElem?_eq_some_iff.mp hy).1
  unfold pixelData
  apply slice_flatMap s (rowBytes s) rows.reverse
  · intro l hl
    exact length_rowBytes s l (h l (List.mem_reverse.mp hl))
  · rw [List.get?_eq_getElem?, List.getElem?_reverse (by omega), ← List.get?_eq_getElem?]
    have : rows.length - 1 - (rows.length - 1 - y) = y := by omega
    rw [this, hy]

theorem get?_of_slice (bytes : List Byte) (off s p : Nat) (hp : p < s) :
    bytes.get? (off + p) = ((bytes.drop off).take s).get? p := by
  simp [List.get?_eq_getElem?, List.getElem?_take, hp]

theorem rowBytes_padding (s : Nat) (ln : List Color) (p : Nat) (h1 : 3 * ln.length ≤ p)
    (h2 : p < s) : (rowBytes s ln).get? p = some 0 := by
  unfold rowBytes
  rw [List.get?_eq_getElem?, List.getElem?_append_right (by rw [length_flatMap_bgr]; omega),
    length_flatMap_bgr, List.getElem?_replicate, if_pos (by omega)]

theorem get?_of_getD_ne (buff : List Byte) (i : Nat) (h : i < buff.length) :
    buff.get? i = some (buff.getD i 0) := by
  simp [List.getD, List.get?_eq_getElem?, List.getElem?_eq_getElem h]

theorem rowBytes_pixel (s : Nat) (ln : List Color) (hs : 3 * ln.length ≤ s) (x : Nat)
    (c : Color) (hx : ln.get? x = some c) :
    (rowBytes s ln).get? (3 * x) = some c.b ∧ (rowBytes s ln).get? (3 * x + 1) = some c.g ∧
      (rowBytes s ln).get? (3 * x + 2) = some c.r := by
  have hlt : x < ln.length := by
    rw [List.get?_eq_getElem?] at hx
    exact (List.getElem?_eq_some_iff.mp hx).1
  have hdec := decodeLine_rowBytes s ln
  have hpx : (decodeLine (rowBytes s ln) ln.length).get? x = some (pixelAt (rowBytes s ln) x) := by
    simp [decodeLine, List.get?_eq_getElem?, List.getElem?_map, List.getElem?_range hlt]
  rw [hdec, hx] at hpx
  have hc : c = pixelAt (rowBytes s ln) x := Option.some.inj hpx
  have hl := length_rowBytes s ln hs
  rw [get?_of_getD_ne _ _ (by omega), get?_of_getD_ne _ _ (by omega),
    get?_of_getD_ne _ _ (by omega), hc]
  have e0 : x * 3 + 0 = 3 * x := by omega
  have e1 : x * 3 + 1 = 3 * x + 1 := by omega
  have e2 : x * 3 + 2 = 3 * x + 2 := by omega
  simp only [pixelAt, e0, e1, e2, and_self]

theorem drop_saved (w h : Int) (pd : List Byte) (i : Nat) :
    (savedHeaders w h ++ pd).drop (54 + i) = pd.drop i := by
  have := @List.drop_append _ (savedHeaders w h) pd i
  rwa [length_savedHeaders] at this

theorem take2_saved (w h : Int) (pd : List Byte) :
    (savedHeaders w h ++ pd).take 2 = [0x42, 0x4D] := by
  have e : savedHeaders w h = [0x42, 0x4D] ++ (savedHeaders w h).drop 2 := by
    simp only [savedHeaders, BitmapFileHeader.toBytes, savedFileHeader, le16, List.cons_append,
      List.nil_append, List.drop_succ_cons, List.drop_zero]
    rfl
  rw [e, List.append_assoc]
  rfl

theorem SaveBMP_total (image : Image) (hwf : image.WF) (hw : image.width ≤ 715827881) :
    ∃ bytes, SaveBMP image = some bytes := by
  obtain ⟨h1, h2⟩ := stride_ok image.width hwf.1 hw
  exact ⟨_, SaveBMP_eq image hwf h1 (Or.inr h2)⟩

theorem bigImage_WF : bigImage.WF := solid_WF 40000 40000 white (by decide) (by decide)

theorem bigImage_stride : GetBMPStride bigImage.width = 120000 := by
  have : bigImage.width = 40000 := rfl
  rw [this]; decide

theorem bigImage_saved :
    SaveBMP bigImage = some (savedHeaders 40000 40000 ++ pixelData 120000 bigImage.pixels) := by
  have hw : bigImage.width = 40000 := rfl
  have hh : bigImage.height = 40000 := rfl
  have h := SaveBMP_eq bigImage bigImage_WF (by rw [bigImage_stride]; decide)
    (Or.inr (by rw [bigImage_stride, hw]; decide))
  rw [bigImage_stride, hw, hh] at h
  exact h

theorem bigImage_length :
    (savedHeaders 40000 40000 ++ pixelData 120000 bigImage.pixels).length = 4800000054 := by
  have hw : bigImage.width = 40000 := rfl
  have hh : bigImage.height = 40000 := rfl
  have h := length_saved bigImage bigImage_WF (by rw [bigImage_stride]; decide)
    (Or.inr (by rw [bigImage_stride, hw]; decide))
  rw [bigImage_stride, hw, hh] at h
  exact h

/-! ## Round trip (C1) -/

/-- C1 (amended): for every raster image with width >= 0 and height >= 0 for
which `SaveBMP` produces a byte sequence of fewer than 2^32 bytes, decoding
that sequence succeeds and returns the original image: same width, same height,
same pixels; `SaveBMP` produces a byte sequence for every width <= 715827881. -/
theorem C1_round_trip (image : Image) (hwf : image.WF) :
    (image.width ≤ 715827881 → ∃ bytes, SaveBMP image = some bytes) ∧
    ∀ bytes, SaveBMP image = some bytes → bytes.length < 4294967296 →
      LoadBMP.run bytes = .ok image ∧ LoadBMP bytes = some image := by
  refine ⟨SaveBMP_total image hwf, ?_⟩
  intro bytes hsave hlt
  obtain ⟨h1, h2⟩ := SaveBMP_some image hwf bytes hsave
  have hlen := length_saved image hwf h1 h2
  have hc := toNat_mul_cast _ _ h1 hwf.2.2.1
  rw [SaveBMP_spec image hwf bytes hsave] at hlt ⊢
  have h := LoadBMP_run_saved image hwf h1 h2 (by omega)
  exact ⟨h, LoadBMP_of_ok _ _ h⟩

/-- C1 witness: the round trip of the 3 x 2 sample image, whose rows are padded. -/
theorem C1_round_trip_witness :
    sampleImage.WF ∧ ∃ bytes, SaveBMP sampleImage = some bytes ∧
      bytes.length < 4294967296 ∧ LoadBMP.run bytes = .ok sampleImage ∧
      LoadBMP bytes = some sampleImage :=
  ⟨by decide, (SaveBMP sampleImage).getD [], by decide, by decide,
    (C1_round_trip sampleImage (by decide)).2 _ (by decide) (by decide)⟩

/-- C1 counterexample: the 40000 x 40000 image is a raster image with width >= 0
and height >= 0; `SaveBMP` writes 4800000054 bytes for it, and `LoadBMP` rejects
these bytes (`bf_size` holds 505032758) and returns the empty image instead of
the original. -/
theorem C1_counterexample :
    bigImage.WF ∧ ∃ bytes, SaveBMP bigImage = some bytes ∧ bytes.length = 4800000054 ∧
      LoadBMP.run bytes = .error .invalid ∧ LoadBMP bytes = some Image.empty ∧
      LoadBMP bytes ≠ some bigImage := by
  have hw : bigImage.width = 40000 := rfl
  have hh : bigImage.height = 40000 := rfl
  have hrun0 := LoadBMP_run_saved_big bigImage bigImage_WF (by rw [bigImage_stride]; decide)
    (Or.inr (by rw [bigImage_stride, hw]; decide)) (by rw [bigImage_stride, hh]; decide)
  rw [bigImage_stride, hw, hh] at hrun0
  have hrun : LoadBMP.run (savedHeaders 40000 40000 ++ pixelData 120000 bigImage.pixels)
      = .error .invalid := hrun0
  refine ⟨bigImage_WF, _, bigImage_saved, bigImage_length, hrun, LoadBMP_of_invalid _ hrun, ?_⟩
  rw [LoadBMP_of_invalid _ hrun]
  intro h
  have h2 : Image.empty.width = bigImage.width := congrArg Image.width (Option.some.inj h)
  rw [hw] at h2
  exact absurd h2 (by decide)

/-! ## The stride (C2) -/

/-- C2 (amended): for every pixel width 0 <= w <= 715827881 (the widths for which
3*w + 3 fits an `int`), `GetBMPStride w` = 4 * floor((3*w + 3) / 4) is 3*w rounded
up to a multiple of 4: non-negative, divisible by 4, 3*w <= stride < 3*w + 4; and
stride(0)=0, stride(1)=4, stride(2)=8, stride(4)=12, stride(5)=16. -/
theorem C2_stride (w : Int) (h0 : 0 ≤ w) (h1 : w ≤ 715827881) :
    GetBMPStride w = 4 * ((3 * w + 3) / 4) ∧ 0 ≤ GetBMPStride w ∧ 4 ∣ GetBMPStride w ∧
      3 * w ≤ GetBMPStride w ∧ GetBMPStride w < 3 * w + 4 ∧
      GetBMPStride 0 = 0 ∧ GetBMPStride 1 = 4 ∧ GetBMPStride 2 = 8 ∧ GetBMPStride 4 = 12 ∧
      GetBMPStride 5 = 16 := by
  rw [GetBMPStride_eq w h0 h1]
  refine ⟨rfl, by omega, Dvd.intro _ rfl, by omega, by omega, ?_⟩
  decide

/-- C2 witness: the stride of width 7 is 24. -/
theorem C2_stride_witness :
    (0 : Int) ≤ 7 ∧ (7 : Int) ≤ 715827881 ∧ GetBMPStride 7 = 4 * ((3 * 7 + 3) / 4) ∧
      0 ≤ GetBMPStride 7 ∧ 4 ∣ GetBMPStride 7 ∧ 3 * 7 ≤ GetBMPStride 7 ∧
      GetBMPStride 7 < 3 * 7 + 4 ∧
      GetBMPStride 0 = 0 ∧ GetBMPStride 1 = 4 ∧ GetBMPStride 2 = 8 ∧ GetBMPStride 4 = 12 ∧
      GetBMPStride 5 = 16 :=
  ⟨by decide, by decide, C2_stride 7 (by decide) (by decide)⟩

/-- C2 counterexample: width 715827882 is a non-negative `int`, but 3*w + 3
exceeds the largest `int`; the stride computed for it is negative and below
3*w. -/
theorem C2_counterexample :
    (0 : Int) ≤ 715827882 ∧ (715827882 : Int) < 2147483648 ∧
      GetBMPStride 715827882 = -2147483644 ∧ ¬ (0 ≤ GetBMPStride 715827882) ∧
      ¬ (3 * 715827882 ≤ GetBMPStride 715827882) := by
  decide

/-! ## The encoded file (C3 to C7) -/

/-- C3: for every image of width w and height h the byte sequence that `SaveBMP`
writes has exactly 54 + stride(w)*h bytes (and `SaveBMP` does write one whenever
w <= 715827881); for the 2 x 2 all-white image this is 54 + 8*2 = 70 bytes, the
first two being 0x42, 0x4D. -/
theorem C3_encoded_length (image : Image) (hwf : image.WF) :
    (image.width ≤ 715827881 → ∃ bytes, SaveBMP image = some bytes) ∧
    (∀ bytes, SaveBMP image = some bytes →
      (bytes.length : Int) = 54 + GetBMPStride image.width * image.height) ∧
    (GetBMPStride 2 = 8 ∧ ∃ bytes, SaveBMP (solid 2 2 white) = some bytes ∧
      bytes.length = 70 ∧ bytes.take 2 = [0x42, 0x4D]) := by
  refine ⟨SaveBMP_total image hwf, ?_, by decide, whiteFile, by decide, by decide, by decide⟩
  intro bytes hsave
  obtain ⟨h1, h2⟩ := SaveBMP_some image hwf bytes hsave
  rw [SaveBMP_spec image hwf bytes hsave, length_saved image hwf h1 h2, Nat.cast_add,
    toNat_mul_cast _ _ h1 hwf.2.2.1]
  rfl

/-- C3 witness: the 3 x 2 sample image is encoded in 54 + 12*2 = 78 bytes. -/
theorem C3_encoded_length_witness :
    sampleImage.WF ∧ (∃ bytes, SaveBMP sampleImage = some bytes) ∧
      ∀ bytes, SaveBMP sampleImage = some bytes → (bytes.length : Int) = 54 + 12 * 2 :=
  ⟨by decide, (C3_encoded_length sampleImage (by decide)).1 (by decide),
    (C3_encoded_length sampleImage (by decide)).2.1⟩

/-- C4 (amended): for every image the first 54 bytes that `SaveBMP` writes are the
tightly packed little-endian file header followed by the info header, with
bf_type=0x4d42 (bytes 0x42, 0x4D), bf_size=(54+stride(width)*height) mod 2^32,
both reserved fields 0, bf_off_bits=54; bi_size=40, bi_width=width,
bi_height=height, bi_planes=1, bi_bit_count=24, bi_compression=0,
bi_size_image=(stride(width)*height) mod 2^32, both resolutions 11811,
bi_clr_used=0, bi_clr_important=0x1000000; when 54+stride(width)*height < 2^32
the two sizes are 54+stride(width)*height and stride(width)*height themselves. -/
theorem C4_headers (image : Image) (hwf : image.WF) (bytes : List Byte)
    (hsave : SaveBMP image = some bytes) :
    bytes.take 54 = (readFileHeader bytes).toBytes ++ (readInfoHeader bytes).toBytes ∧
    readFileHeader bytes =
      { bf_type := 0x4d42
        bf_size := ((54 + GetBMPStride image.width * image.height) % 4294967296).toNat
        bf_reserved_1 := 0
        bf_reserved_2 := 0
        bf_off_bits := 54 } ∧
    readInfoHeader bytes =
      { bi_size := 40
        bi_width := image.width
        bi_height := image.height
        bi_planes := 1
        bi_bit_count := 24
        bi_compression := 0
        bi_size_image := ((GetBMPStride image.width * image.height) % 4294967296).toNat
        bi_x_pels_per_meter := 11811
        bi_y_pels_per_meter := 11811
        bi_clr_used := 0
        bi_clr_important := 0x1000000 } ∧
    (54 + GetBMPStride image.width * image.height < 4294967296 →
      ((readFileHeader bytes).bf_size : Int) = 54 + GetBMPStride image.width * image.height ∧
      ((readInfoHeader bytes).bi_size_image : Int) = GetBMPStride image.width * image.height) ∧
    bytes.take 2 = [0x42, 0x4D] := by
  obtain ⟨h1, h2⟩ := SaveBMP_some image hwf bytes hsave
  obtain ⟨hw0, hw1, hh0, hh1, _, _⟩ := hwf
  have hnn : 0 ≤ GetBMPStride image.width * image.height := Int.mul_nonneg h1 hh0
  rw [SaveBMP_spec image ⟨hw0, hw1, hh0, hh1, by assumption, by assumption⟩ bytes hsave,
    readFileHeader_saved, readInfoHeader_saved _ _ _ ⟨by omega, hw1⟩ ⟨by omega, hh1⟩]
  refine ⟨List.take_left' (length_savedHeaders _ _), ?_, ?_, ?_, take2_saved _ _ _⟩
  · simp only [savedFileHeader, wrapUInt32, BitmapFileHeader.mk.injEq, and_true, true_and]
    generalize GetBMPStride image.width * image.height = p at hnn
    omega
  · simp only [savedInfoHeader, wrapUInt32]
  · intro hlt
    simp only [savedFileHeader, savedInfoHeader, wrapUInt32]
    generalize GetBMPStride image.width * image.height = p at hnn hlt
    omega

/-- C4 witness: the headers of the encoded 3 x 2 sample image. -/
theorem C4_headers_witness :
    sampleImage.WF ∧ ∃ bytes, SaveBMP sampleImage = some bytes ∧
      (readFileHeader bytes).bf_size = 78 ∧ (readInfoHeader bytes).bi_size_image = 24 ∧
      (readInfoHeader bytes).bi_clr_important = 0x1000000 :=
  ⟨by decide, (SaveBMP sampleImage).getD [], by decide,
    by rw [(C4_headers sampleImage (by decide) _ (by decide)).2.1]; decide,
    by rw [(C4_headers sampleImage (by decide) _ (by decide)).2.2.1]; decide,
    by rw [(C4_headers sampleImage (by decide) _ (by decide)).2.2.1]⟩

/-- C4 counterexample: for the 40000 x 40000 image stride(width)*height is
4800000000, but the headers that `SaveBMP` writes hold bf_size = 505032758 and
bi_size_image = 505032704. -/
theorem C4_counterexample :
    bigImage.WF ∧ GetBMPStride bigImage.width * bigImage.height = 4800000000 ∧
      ∃ bytes, SaveBMP bigImage = some bytes ∧ (readFileHeader bytes).bf_size = 505032758 ∧
        (readInfoHeader bytes).bi_size_image = 505032704 := by
  have hh : bigImage.height = 40000 := rfl
  refine ⟨bigImage_WF, by rw [bigImage_stride, hh]; decide, _, bigImage_saved, ?_, ?_⟩
  · rw [readFileHeader_saved]; decide
  · rw [readInfoHeader_saved _ _ _ (by decide) (by decide)]; decide

/-- C5: in the bytes that `SaveBMP` writes for an image, row y of the image
(0 <= y < height) occupies the stride(width) bytes that start at offset
54 + (height-1-y)*stride(width), so the bottom row comes first; within the row
pixel x (0 <= x < width) occupies the bytes 3x, 3x+1, 3x+2, which hold its b, g
and r channel in this order. -/
theorem C5_row_layout (image : Image) (hwf : image.WF) (bytes : List Byte)
    (hsave : SaveBMP image = some bytes) (y : Nat) (ln : List Color)
    (hy : image.GetLine y = some ln) :
    54 + (image.height.toNat - 1 - y) * (GetBMPStride image.width).toNat
        + (GetBMPStride image.width).toNat ≤ bytes.length ∧
    (y + 1 = image.height.toNat →
      54 + (image.height.toNat - 1 - y) * (GetBMPStride image.width).toNat = 54) ∧
    ((bytes.drop (54 + (image.height.toNat - 1 - y) * (GetBMPStride image.width).toNat)).take
        (GetBMPStride image.width).toNat).length = (GetBMPStride image.width).toNat ∧
    ∀ (x : Nat) (c : Color), ln.get? x = some c →
      bytes.get? (54 + (image.height.toNat - 1 - y) * (GetBMPStride image.width).toNat
        + 3 * x) = some c.b ∧
      bytes.get? (54 + (image.height.toNat - 1 - y) * (GetBMPStride image.width).toNat
        + (3 * x + 1)) = some c.g ∧
      bytes.get? (54 + (image.height.toNat - 1 - y) * (GetBMPStride image.width).toNat
        + (3 * x + 2)) = some c.r := by
  obtain ⟨h1, h2⟩ := SaveBMP_some image hwf bytes hsave
  have hlen := length_saved image hwf h1 h2
  rw [SaveBMP_spec image hwf bytes hsave] at *
  obtain ⟨hw0, hw1, hh0, hh1, hpl, hrow⟩ := hwf
  have hy2 : image.pixels.get? y = some ln := by rw [List.get?_eq_getElem?]; exact hy
  have hlt : y < image.pixels.length := by
    rw [List.get?_eq_getElem?] at hy2
    exact (List.getElem?_eq_some_iff.mp hy2).1
  have hmem : ln ∈ image.pixels := List.getElem?_mem hy
  have hlw : ln.length = image.width.toNat := hrow ln hmem
  have h3 : 3 * image.width.toNat ≤ (GetBMPStride image.width).toNat := by
    rcases h2 with h2 | h2
    · omega
    · omega
  generalize hs : (GetBMPStride image.width).toNat = s at *
  generalize hn : image.height.toNat = n at *
  have hslice := slice_pixelData s image.pixels
    (by intro l hl; rw [hrow l hl]; exact h3) y ln hy2
  rw [hpl] at hslice
  have hmul : (n - 1 - y) * s + s ≤ n * s := by
    have : (n - 1 - y) + 1 ≤ n := by omega
    calc (n - 1 - y) * s + s = ((n - 1 - y) + 1) * s := by ring
      _ ≤ n * s := Nat.mul_le_mul_right s this
  have hlast : y + 1 = n → 54 + (n - 1 - y) * s = 54 := by
    intro h
    have : n - 1 - y = 0 := by omega
    rw [this]; simp
  refine ⟨by omega, hlast, ?_, ?_⟩
  · rw [List.length_take, List.length_drop, hlen]; omega
  · intro x c hx
    have hxl : x < ln.length := by
      rw [List.get?_eq_getElem?] at hx
      exact (List.getElem?_eq_some_iff.mp hx).1
    obtain ⟨p0, p1, p2⟩ := rowBytes_pixel s ln (by omega) x c hx
    rw [get?_of_slice _ _ s (3 * x) (by omega), get?_of_slice _ _ s (3 * x + 1) (by omega),
      get?_of_slice _ _ s (3 * x + 2) (by omega), drop_saved, hslice]
    exact ⟨p0, p1, p2⟩

/-- C5 witness: in the 78 bytes of the encoded 3 x 2 sample image row 0 starts at
offset 54 + 1*12 = 66, and its pixel 1 = (4,5,6) occupies the bytes 69, 70, 71 as
6, 5, 4. -/
theorem C5_row_layout_witness :
    sampleImage.WF ∧ ∃ bytes, SaveBMP sampleImage = some bytes ∧
      bytes.get? (54 + (2 - 1 - 0) * 12 + 3 * 1) = some 6 ∧
      bytes.get? (54 + (2 - 1 - 0) * 12 + (3 * 1 + 1)) = some 5 ∧
      bytes.get? (54 + (2 - 1 - 0) * 12 + (3 * 1 + 2)) = some 4 :=
  ⟨by decide, (SaveBMP sampleImage).getD [], by decide,
    (C5_row_layout sampleImage (by decide) _ (by decide) 0
      [⟨1, 2, 3⟩, ⟨4, 5, 6⟩, ⟨7, 8, 9⟩] (by decide)).2.2.2 1 ⟨4, 5, 6⟩ (by decide)⟩

/-- C6: in the bytes that `SaveBMP` writes for an image, in every row the bytes
at the in-row positions p with 3*width <= p < stride(width), the padding, are
zero. -/
theorem C6_padding_zero (image : Image) (hwf : image.WF) (bytes : List Byte)
    (hsave : SaveBMP image = some bytes) (y : Nat) (hy : y < image.height.toNat) (p : Nat)
    (hp1 : 3 * image.width.toNat ≤ p) (hp2 : p < (GetBMPStride image.width).toNat) :
    bytes.get? (54 + (image.height.toNat - 1 - y) * (GetBMPStride image.width).toNat + p)
      = some 0 := by
  obtain ⟨h1, h2⟩ := SaveBMP_some image hwf bytes hsave
  rw [SaveBMP_spec image hwf bytes hsave]
  obtain ⟨hw0, hw1, hh0, hh1, hpl, hrow⟩ := hwf
  have hlt : y < image.pixels.length := by omega
  have hy2 : image.pixels.get? y = some image.pixels[y] := by
    rw [List.get?_eq_getElem?, List.getElem?_eq_getElem hlt]
  have hlw := hrow _ (List.getElem_mem hlt)
  have hslice := slice_pixelData (GetBMPStride image.width).toNat image.pixels
    (by intro l hl; rw [hrow l hl]; omega) y _ hy2
  rw [hpl] at hslice
  rw [get?_of_slice _ _ (GetBMPStride image.width).toNat p hp2, drop_saved, hslice]
  exact rowBytes_padding _ _ p (by omega) hp2

/-- C6 witness: in the encoded 3 x 2 sample image (stride 12) the byte at in-row
position 10 of row 1 is zero. -/
theorem C6_padding_zero_witness :
    sampleImage.WF ∧ ∃ bytes, SaveBMP sampleImage = some bytes ∧
      bytes.get? (54 + (2 - 1 - 1) * 12 + 10) = some 0 :=
  ⟨by decide, (SaveBMP sampleImage).getD [], by decide,
    C6_padding_zero sampleImage (by decide) _ (by decide) 1 (by decide) 10 (by decide)
      (by decide)⟩

/-- C7 (amended): the 32-bit `bf_size` field that `SaveBMP` writes equals the
number of bytes of the encoded output modulo 2^32, hence that number itself
whenever it is below 2^32; the number of bytes is 54 + stride(width)*height, and
`bf_off_bits` equals sizeof(FileHeader) + sizeof(InfoHeader) = 54. -/
theorem C7_file_size (image : Image) (hwf : image.WF) (bytes : List Byte)
    (hsave : SaveBMP image = some bytes) :
    (readFileHeader bytes).bf_size = bytes.length % 4294967296 ∧
    (bytes.length < 4294967296 → (readFileHeader bytes).bf_size = bytes.length) ∧
    (bytes.length : Int) = 54 + GetBMPStride image.width * image.height ∧
    (readFileHeader bytes).bf_off_bits = sizeofBitmapFileHeader + sizeofBitmapInfoHeader ∧
    (readFileHeader bytes).bf_off_bits = 54 := by
  obtain ⟨h1, h2⟩ := SaveBMP_some image hwf bytes hsave
  have hlen := length_saved image hwf h1 h2
  have hc := toNat_mul_cast _ _ h1 hwf.2.2.1
  rw [SaveBMP_spec image hwf bytes hsave, readFileHeader_saved, hlen]
  have hbf : (savedFileHeader image.width image.height).bf_size
      = (54 + wrapUInt32 (GetBMPStride image.width * image.height)) % 4294967296 := rfl
  have hmod : (savedFileHeader image.width image.height).bf_size
      = (54 + image.height.toNat * (GetBMPStride image.width).toNat) % 4294967296 := by
    rw [hbf, ← hc]
    unfold wrapUInt32
    generalize image.height.toNat * (GetBMPStride image.width).toNat = q
    omega
  refine ⟨hmod, ?_, by rw [Nat.cast_add, hc]; rfl, rfl, rfl⟩
  intro hlt
  rw [hmod, Nat.mod_eq_of_lt hlt]

/-- C7 witness: for the 3 x 2 sample image `bf_size` is 78, the number of bytes
written. -/
theorem C7_file_size_witness :
    sampleImage.WF ∧ ∃ bytes, SaveBMP sampleImage = some bytes ∧ bytes.length = 78 ∧
      (readFileHeader bytes).bf_size = bytes.length :=
  ⟨by decide, (SaveBMP sampleImage).getD [], by decide, by decide,
    (C7_file_size sampleImage (by decide) _ (by decide)).2.1 (by decide)⟩

/-- C7 counterexample: for the 40000 x 40000 image `SaveBMP` writes 4800000054
bytes, but the `bf_size` field of these bytes holds 505032758. -/
theorem C7_counterexample :
    bigImage.WF ∧ ∃ bytes, SaveBMP bigImage = some bytes ∧ bytes.length = 4800000054 ∧
      (readFileHeader bytes).bf_size = 505032758 ∧
      (readFileHeader bytes).bf_size ≠ bytes.length := by
  refine ⟨bigImage_WF, _, bigImage_saved, bigImage_length, ?_, ?_⟩
  · rw [readFileHeader_saved]; decide
  · rw [readFileHeader_saved, bigImage_length]; decide

/-! ## Rejected files (C8 to C10) -/

/-- C8: every byte stream whose first two bytes, read as the little-endian
uint16 `bf_type`, differ from 0x4d42 is rejected by `LoadBMP`, whatever the rest
of the stream contains: the body takes `return {}` and the result is the empty
image. -/
theorem C8_bad_magic (file : List Byte) (h : getU16 file 0 ≠ 0x4d42) :
    LoadBMP.run file = .error .invalid ∧ LoadBMP file = some Image.empty :=
  ⟨LoadBMP_run_bad_fileHeader file (Or.inl h),
    LoadBMP_of_invalid file (LoadBMP_run_bad_fileHeader file (Or.inl h))⟩

/-- C8 witness: the encoded 2 x 2 white image with "XY" in place of "BM". -/
theorem C8_bad_magic_witness :
    getU16 ([0x58, 0x59] ++ whiteFile.drop 2) 0 ≠ 0x4d42 ∧
      LoadBMP.run ([0x58, 0x59] ++ whiteFile.drop 2) = .error .invalid ∧
      LoadBMP ([0x58, 0x59] ++ whiteFile.drop 2) = some Image.empty :=
  ⟨by decide, C8_bad_magic ([0x58, 0x59] ++ whiteFile.drop 2) (by decide)⟩

/-- C9: every byte stream whose `bf_size` header field differs from the number
of bytes of the stream is rejected by `LoadBMP`: the body takes `return {}` and
the result is the empty image. -/
theorem C9_size_mismatch (file : List Byte) (h : getU32 file 2 ≠ file.length) :
    LoadBMP.run file = .error .invalid ∧ LoadBMP file = some Image.empty :=
  ⟨LoadBMP_run_bad_fileHeader file (Or.inr (Or.inl h)),
    LoadBMP_of_invalid file (LoadBMP_run_bad_fileHeader file (Or.inr (Or.inl h)))⟩

/-- C9 witness: the encoded 2 x 2 white image with its last ten bytes cut off. -/
theorem C9_size_mismatch_witness :
    getU32 (whiteFile.take 60) 2 ≠ (whiteFile.take 60).length ∧
      LoadBMP.run (whiteFile.take 60) = .error .invalid ∧
      LoadBMP (whiteFile.take 60) = some Image.empty :=
  ⟨by decide, C9_size_mismatch (whiteFile.take 60) (by decide)⟩

/-- C10: every byte stream whose `bf_off_bits` header field is not 54 is rejected
by `LoadBMP`: the body takes `return {}` and the result is the empty image. -/
theorem C10_bad_off_bits (file : List Byte) (h : getU32 file 10 ≠ 54) :
    LoadBMP.run file = .error .invalid ∧ LoadBMP file = some Image.empty :=
  ⟨LoadBMP_run_bad_fileHeader file (Or.inr (Or.inr (Or.inr (Or.inr h)))),
    LoadBMP_of_invalid file
      (LoadBMP_run_bad_fileHeader file (Or.inr (Or.inr (Or.inr (Or.inr h)))))⟩

/-- C10 witness: the encoded 2 x 2 white image with `bf_off_bits` set to 55. -/
theorem C10_bad_off_bits_witness :
    getU32 (whiteFile.set 10 55) 10 ≠ 54 ∧
      LoadBMP.run (whiteFile.set 10 55) = .error .invalid ∧
      LoadBMP (whiteFile.set 10 55) = some Image.empty :=
  ⟨by decide, C10_bad_off_bits (whiteFile.set 10 55) (by decide)⟩

/-! ## Accepted and rejected files -/

theorem getD_drop_take {α : Type} (l : List α) (n m i : Nat) (d : α) (h : i < m) :
    ((l.drop n).take m).getD i d = l.getD (n + i) d := by
  simp [List.getD, List.getElem?_take, h, List.getElem?_drop]

theorem readInfoHeader_fields (file : List Byte) :
    (readInfoHeader file).bi_size = getU32 file 14 ∧
    (readInfoHeader file).bi_width = getI32 file 18 ∧
    (readInfoHeader file).bi_height = getI32 file 22 ∧
    (readInfoHeader file).bi_planes = getU16 file 26 ∧
    (readInfoHeader file).bi_bit_count = getU16 file 28 ∧
    (readInfoHeader file).bi_compression = getU32 file 30 ∧
    (readInfoHeader file).bi_size_image = getU32 file 34 ∧
    (readInfoHeader file).bi_x_pels_per_meter = getI32 file 38 ∧
    (readInfoHeader file).bi_y_pels_per_meter = getI32 file 42 ∧
    (readInfoHeader file).bi_clr_used = getI32 file 46 ∧
    (readInfoHeader file).bi_clr_important = getI32 file 50 := by
  have key : ∀ i, i < 40 → ((file.drop 14).take 40).getD i 0 = file.getD (14 + i) 0 :=
    fun i hi => getD_drop_take file 14 40 i 0 hi
  simp only [readInfoHeader, BitmapInfoHeader.ofBytes, getU16, getU32, getI32,
    sizeofBitmapFileHeader, sizeofBitmapInfoHeader]
  refine ⟨?_, ?_, ?_, ?_, ?_, ?_, ?_, ?_, ?_, ?_, ?_⟩ <;>
    simp only [key 0 (by decide), key (0 + 1) (by decide), key (0 + 2) (by decide),
      key (0 + 3) (by decide), key 4 (by decide), key (4 + 1) (by decide),
      key (4 + 2) (by decide), key (4 + 3) (by decide), key 8 (by decide),
      key (8 + 1) (by decide), key (8 + 2) (by decide), key (8 + 3) (by decide),
      key 12 (by decide), key (12 + 1) (by decide), key 14 (by decide),
      key (14 + 1) (by decide), key 16 (by decide), key (16 + 1) (by decide),
      key (16 + 2) (by decide), key (16 + 3) (by decide), key 20 (by decide),
      key (20 + 1) (by decide), key (20 + 2) (by decide), key (20 + 3) (by decide),
      key 24 (by decide), key (24 + 1) (by decide), key (24 + 2) (by decide),
      key (24 + 3) (by decide), key 28 (by decide), key (28 + 1) (by decide),
      key (28 + 2) (by decide), key (28 + 3) (by decide), key 32 (by decide),
      key (32 + 1) (by decide), key (32 + 2) (by decide), key (32 + 3) (by decide),
      key 36 (by decide), key (36 + 1) (by decide), key (36 + 2) (by decide),
      key (36 + 3) (by decide)]

/-- A file that fails a check on its headers makes `LoadBMP` take `return {}`. -/
theorem LoadBMP_run_invalid (file : List Byte) (h : ¬ headersValid file) :
    LoadBMP.run file = .error .invalid := by
  rw [LoadBMP_run_eq]
  unfold headersValid at h
  by_cases h14 : file.length < 14
  · rw [if_pos h14]
  · rw [if_neg h14]
    split
    · rfl
    · rename_i hfh
      by_cases h54 : file.length < 54
      · rw [if_pos h54]
      · rw [if_neg h54]
        split
        · rfl
        · rename_i hbi
          exfalso
          apply h
          simp only [not_or, ne_eq, Decidable.not_not] at hfh hbi
          exact ⟨by omega, hfh.1, hfh.2.1, hfh.2.2.1, hfh.2.2.2.1, hfh.2.2.2.2, hbi⟩

/-- On a file that passes the checks on its headers `LoadBMP` goes on to the row
buffer and the row loop. -/
theorem LoadBMP_run_valid (file : List Byte) (h : headersValid file) :
    LoadBMP.run file =
      if GetBMPStride (readInfoHeader file).bi_width < 0 then .error .undefined
      else LoadBMP.rowLoop (readInfoHeader file).bi_width
        (GetBMPStride (readInfoHeader file).bi_width).toNat
        (readInfoHeader file).bi_height.toNat (file.drop 54)
        (Image.create (readInfoHeader file).bi_width (readInfoHeader file).bi_height
          Color.Black) := by
  obtain ⟨h54, h1, h2, h3, h4, h5, h6⟩ := h
  rw [LoadBMP_run_eq, if_neg (by omega), if_neg (by simp [h1, h2, h3, h4, h5]),
    if_neg (by omega), if_neg (by simp [h6])]

theorem load_getPixel_some (buff : List Byte) (ln ln1 : List Color) (x : Nat)
    (h : LoadBMP.getPixel buff ln x = some ln1) : x * 3 + 2 < buff.length := by
  unfold LoadBMP.getPixel at h
  split at h
  · rename_i vb vg vr c h0 h1 h2 h3
    rw [List.get?_eq_getElem?] at h2
    exact (List.getElem?_eq_some_iff.mp h2).1
  · cases h

/-- The pixel loop of `LoadBMP` only runs to its end when every byte it reads is
inside the row buffer. -/
theorem load_pixelLoop_some (buff : List Byte) :
    ∀ (n x : Nat) (ln ln1 : List Color), LoadBMP.pixelLoop buff n x ln = some ln1 →
      n = 0 ∨ 3 * (x + n) ≤ buff.length := by
  intro n
  induction n with
  | zero => intro _ _ _ _; exact Or.inl rfl
  | succ n ih =>
    intro x ln ln1 h
    right
    unfold LoadBMP.pixelLoop at h
    cases hg : LoadBMP.getPixel buff ln x with
    | none => rw [hg] at h; cases h
    | some l2 =>
      rw [hg] at h
      simp only at h
      have hb := load_getPixel_some buff ln l2 x hg
      rcases ih (x + 1) l2 ln1 h with h0 | h0
      · omega
      · omega

/-- The row loop of `LoadBMP` takes `return {}` when the stream ends before the
last row. -/
theorem load_rowLoop_short (w : Int) (s : Nat) (hs : 3 * w.toNat ≤ s) :
    ∀ (n : Nat) (ifs : List Byte) (result : Image), ifs.length < n * s →
      n ≤ result.pixels.length → (∀ ln ∈ result.pixels, ln.length = w.toNat) →
      LoadBMP.rowLoop w s n ifs result = .error .invalid := by
  intro n
  induction n with
  | zero => intro ifs result h _ _; simp at h
  | succ y ih =>
    intro ifs result hifs hn hrow
    have hy : y < result.pixels.length := by omega
    unfold LoadBMP.rowLoop
    simp only [Image.GetLine, List.getElem?_eq_getElem hy]
    by_cases hle : s ≤ ifs.length
    · simp only [ifsRead_eq ifs s hle]
      rw [load_pixelLoop_row (ifs.take s) w.toNat _ (hrow _ (List.getElem_mem hy))
        (by rw [List.length_take]; omega)]
      simp only
      apply ih
      · have : (y + 1) * s = y * s + s := by ring
        rw [List.length_drop]; omega
      · simp [Image.setLine]; omega
      · intro ln hln
        simp only [Image.setLine] at hln
        rcases List.mem_or_eq_of_mem_set hln with h | h
        · exact hrow _ h
        · rw [h, length_decodeLine]
    · have : ifsRead ifs s = none := by simp [ifsRead]; omega
      rw [this]

/-- The row loop of `LoadBMP` does not reach `return result` when a row of the
image does not fit the row buffer. -/
theorem load_rowLoop_overrun (w : Int) (s : Nat) (hs : s < 3 * w.toNat) (n : Nat)
    (ifs : List Byte) (result : Image) (hn : 0 < n) (image : Image) :
    LoadBMP.rowLoop w s n ifs result ≠ .ok image := by
  obtain ⟨y, rfl⟩ : ∃ y, n = y + 1 := ⟨n - 1, by omega⟩
  unfold LoadBMP.rowLoop
  intro h
  split at h
  · cases h
  · rename_i ln _
    split at h
    · cases h
    · rename_i buff rest hr
      have hbl : buff.length = s := by
        unfold ifsRead at hr
        split at hr
        · rename_i hle
          simp only [Option.some.injEq, Prod.mk.injEq] at hr
          rw [← hr.1, List.length_take]; omega
        · cases hr
      split at h
      · cases h
      · rename_i ln1 hp
        rcases load_pixelLoop_some buff _ _ _ _ hp with h0 | h0
        · omega
        · omega

theorem load_rowLoop_ok_length (w : Int) (s : Nat) :
    ∀ (n : Nat) (ifs : List Byte) (result image : Image),
      LoadBMP.rowLoop w s n ifs result = .ok image → n * s ≤ ifs.length := by
  intro n
  induction n with
  | zero => intro _ _ _ _; simp
  | succ y ih =>
    intro ifs result image h
    unfold LoadBMP.rowLoop at h
    split at h
    · cases h
    · split at h
      · cases h
      · rename_i buff rest hr
        unfold ifsRead at hr
        split at hr
        · rename_i hle
          simp only [Option.some.injEq, Prod.mk.injEq] at hr
          split at h
          · cases h
          · have := ih _ _ _ h
            rw [← hr.2, List.length_drop] at this
            have e : (y + 1) * s = y * s + s := by ring
            omega
        · cases hr

/-- A file that passes the header checks and holds all its rows is accepted, and
the image returned is `decodedImage`. -/
theorem LoadBMP_run_accept (file : List Byte) (hv : headersValid file)
    (hs0 : 0 ≤ GetBMPStride (readInfoHeader file).bi_width)
    (h3 : (readInfoHeader file).bi_height.toNat = 0 ∨
      3 * (readInfoHeader file).bi_width.toNat
        ≤ (GetBMPStride (readInfoHeader file).bi_width).toNat)
    (hlen : 54 + (readInfoHeader file).bi_height.toNat
      * (GetBMPStride (readInfoHeader file).bi_width).toNat ≤ file.length) :
    LoadBMP.run file = .ok (decodedImage file) := by
  rw [LoadBMP_run_valid file hv, if_neg (by omega)]
  unfold decodedImage
  rcases h3 with h3 | h3
  · rw [h3]
    simp [LoadBMP.rowLoop, Image.create, decodeRows, h3]
  · rw [load_rowLoop_eq _ _ h3 _ _ _ (by rw [List.length_drop]; omega)
      (by simp [Image.create])
      (by
        intro ln hln
        simp only [Image.create] at hln
        rw [List.eq_of_mem_replicate hln, List.length_replicate])]
    simp [Image.create]

/-- What is known of a file that `LoadBMP` accepts. -/
theorem LoadBMP_run_ok (file : List Byte) (image : Image) (h : LoadBMP.run file = .ok image) :
    headersValid file ∧ 0 ≤ GetBMPStride (readInfoHeader file).bi_width ∧
      ((readInfoHeader file).bi_height.toNat = 0 ∨
        3 * (readInfoHeader file).bi_width.toNat
          ≤ (GetBMPStride (readInfoHeader file).bi_width).toNat) ∧
      54 + (readInfoHeader file).bi_height.toNat
        * (GetBMPStride (readInfoHeader file).bi_width).toNat ≤ file.length ∧
      image = decodedImage file := by
  have hv : headersValid file := by
    by_contra hv
    rw [LoadBMP_run_invalid file hv] at h
    cases h
  have hrun := h
  rw [LoadBMP_run_valid file hv] at h
  have hs0 : 0 ≤ GetBMPStride (readInfoHeader file).bi_width := by
    by_contra hneg
    rw [if_pos (by omega)] at h
    cases h
  rw [if_neg (by omega)] at h
  have h3 : (readInfoHeader file).bi_height.toNat = 0 ∨
      3 * (readInfoHeader file).bi_width.toNat
        ≤ (GetBMPStride (readInfoHeader file).bi_width).toNat := by
    by_contra hc
    simp only [not_or, not_le] at hc
    exact load_rowLoop_overrun _ _ hc.2 _ _ _ (by omega) image h
  have hl := load_rowLoop_ok_length _ _ _ _ _ _ h
  rw [List.length_drop] at hl
  have h54 := hv.1
  have hlen : 54 + (readInfoHeader file).bi_height.toNat
      * (GetBMPStride (readInfoHeader file).bi_width).toNat ≤ file.length := by omega
  have hacc := LoadBMP_run_accept file hv hs0 h3 hlen
  rw [hrun] at hacc
  exact ⟨hv, hs0, h3, hlen, Except.ok.inj hacc⟩

/-- The row loop of `LoadBMP` has no defined result when a full row was read into
a row buffer that the pixels of a row do not fit. -/
theorem load_rowLoop_undefined (w : Int) (s : Nat) (hs : s < 3 * w.toNat) (n : Nat)
    (ifs : List Byte) (result : Image) (hn : 0 < n) (hr : n ≤ result.pixels.length)
    (hifs : s ≤ ifs.length) :
    LoadBMP.rowLoop w s n ifs result = .error .undefined := by
  obtain ⟨y, rfl⟩ : ∃ y, n = y + 1 := ⟨n - 1, by omega⟩
  have hy : y < result.pixels.length := by omega
  unfold LoadBMP.rowLoop
  simp only [Image.GetLine, List.getElem?_eq_getElem hy, ifsRead_eq ifs s hifs]
  cases hp : LoadBMP.pixelLoop (List.take s ifs) w.toNat 0 result.pixels[y] with
  | none => rfl
  | some ln1 =>
    exfalso
    rcases load_pixelLoop_some _ _ _ _ _ hp with h0 | h0
    · omega
    · rw [List.length_take] at h0; omega

/-! ## The closed form of the decoded rows -/

theorem length_decodeRows (s w : Nat) :
    ∀ (n : Nat) (ifs : List Byte), (decodeRows s w n ifs).length = n := by
  intro n
  induction n with
  | zero => intro _; rfl
  | succ n ih => intro ifs; simp [decodeRows, ih]

theorem length_of_mem_decodeRows (s w : Nat) :
    ∀ (n : Nat) (ifs : List Byte) (ln : List Color), ln ∈ decodeRows s w n ifs →
      ln.length = w := by
  intro n
  induction n with
  | zero => intro _ ln h; simp [decodeRows] at h
  | succ n ih =>
    intro ifs ln h
    simp only [decodeRows, List.mem_append, List.mem_singleton] at h
    rcases h with h | h
    · exact ih _ _ h
    · rw [h, length_decodeLine]

/-- Row `y` of the decoded rows comes from the slice of `s` bytes at offset
`(n - 1 - y) * s` of the stream. -/
theorem decodeRows_get (s w : Nat) :
    ∀ (n : Nat) (ifs : List Byte) (y : Nat), y < n →
      (decodeRows s w n ifs).get? y
        = some (decodeLine ((ifs.drop ((n - 1 - y) * s)).take s) w) := by
  intro n
  induction n with
  | zero => intro _ y h; omega
  | succ n ih =>
    intro ifs y hy
    unfold decodeRows
    rw [List.get?_eq_getElem?]
    by_cases hyn : y < n
    · rw [List.getElem?_append_left (by rw [length_decodeRows]; exact hyn),
        ← List.get?_eq_getElem?, ih _ y hyn, List.drop_drop]
      have e : s + (n - 1 - y) * s = (n + 1 - 1 - y) * s := by
        have : n + 1 - 1 - y = (n - 1 - y) + 1 := by omega
        rw [this]; ring
      rw [e]
    · have hy2 : y = n := by omega
      subst hy2
      rw [List.getElem?_append_right (by rw [length_decodeRows]), length_decodeRows]
      simp

theorem decodeLine_get (buff : List Byte) (w x : Nat) (h : x < w) :
    (decodeLine buff w).get? x = some (pixelAt buff x) := by
  simp [decodeLine, List.get?_eq_getElem?, List.getElem?_map, List.getElem?_range h]

theorem getD_take_of_lt (l : List Byte) (n i : Nat) (h : i < n) :
    (l.take n).getD i 0 = l.getD i 0 := getD_take l n i 0 h

/-- A decoded row depends on the first `3 * w` bytes of the row buffer only. -/
theorem decodeLine_take (buff : List Byte) (w : Nat) :
    decodeLine (buff.take (3 * w)) w = decodeLine buff w := by
  unfold decodeLine
  apply List.map_congr_left
  intro x hx
  have hx2 : x < w := List.mem_range.mp hx
  unfold pixelAt
  rw [getD_take _ _ _ _ (show x * 3 + 2 < 3 * w by omega),
    getD_take _ _ _ _ (show x * 3 + 1 < 3 * w by omega),
    getD_take _ _ _ _ (show x * 3 + 0 < 3 * w by omega)]

/-- The decoded rows depend on the pixel bytes of the rows only: neither on the
padding of a row nor on what follows the last row. -/
theorem decodeRows_congr (s w : Nat) (hs : 3 * w ≤ s) :
    ∀ (n : Nat) (ifs1 ifs2 : List Byte),
      (∀ r, r < n → (ifs1.drop (r * s)).take (3 * w) = (ifs2.drop (r * s)).take (3 * w)) →
      decodeRows s w n ifs1 = decodeRows s w n ifs2 := by
  intro n
  induction n with
  | zero => intro _ _ _; rfl
  | succ n ih =>
    intro ifs1 ifs2 h
    unfold decodeRows
    have h0 := h 0 (by omega)
    simp only [Nat.zero_mul, List.drop_zero] at h0
    have hl : decodeLine (ifs1.take s) w = decodeLine (ifs2.take s) w := by
      rw [← decodeLine_take (ifs1.take s), ← decodeLine_take (ifs2.take s), List.take_take,
        List.take_take, Nat.min_eq_left hs, h0]
    have hr : decodeRows s w n (ifs1.drop s) = decodeRows s w n (ifs2.drop s) := by
      apply ih
      intro r hr
      have := h (r + 1) (by omega)
      have e : (r + 1) * s = s + r * s := by ring
      rw [e] at this
      rw [List.drop_drop, List.drop_drop]
      exact this
    rw [hl, hr]

/-! ## From the bytes of a header to the header and back -/

theorem byteOf_eq (n : Nat) (a : Byte) (h : n % 256 = a.val) : byteOf n = a :=
  Fin.ext h

theorem le16_getU16 (a b : Byte) : le16 (a.val + 256 * b.val) = [a, b] := by
  have ha := a.isLt
  have hb := b.isLt
  unfold le16
  rw [byteOf_eq _ a (by omega), byteOf_eq _ b (by omega)]

theorem le32_getU32 (a b c d : Byte) :
    le32 (a.val + 256 * b.val + 65536 * c.val + 16777216 * d.val) = [a, b, c, d] := by
  have ha := a.isLt
  have hb := b.isLt
  have hc := c.isLt
  have hd := d.isLt
  unfold le32
  rw [byteOf_eq _ a (by omega), byteOf_eq _ b (by omega), byteOf_eq _ c (by omega),
    byteOf_eq _ d (by omega)]

theorem le32s_getI32 (a b c d : Byte) :
    le32s (wrapInt32 ((a.val + 256 * b.val + 65536 * c.val + 16777216 * d.val : Nat) : Int))
      = [a, b, c, d] := by
  have ha := a.isLt
  have hb := b.isLt
  have hc := c.isLt
  have hd := d.isLt
  unfold le32s
  rw [wrapUInt32_wrapInt32]
  have e : wrapUInt32 ((a.val + 256 * b.val + 65536 * c.val + 16777216 * d.val : Nat) : Int)
      = a.val + 256 * b.val + 65536 * c.val + 16777216 * d.val := by
    unfold wrapUInt32; omega
  rw [e, le32_getU32]

/-- Fourteen bytes are the object representation of the file header read from
them. -/
theorem fileHeader_toBytes_ofBytes (bs : List Byte) (h : bs.length = 14) :
    (BitmapFileHeader.ofBytes bs).toBytes = bs := by
  match bs, h with
  | [b0, b1, b2, b3, b4, b5, b6, b7, b8, b9, b10, b11, b12, b13], _ =>
    simp only [BitmapFileHeader.ofBytes, BitmapFileHeader.toBytes, getU16, getU32,
      List.getD_cons_zero, List.getD_cons_succ, le16_getU16, le32_getU32, List.cons_append,
      List.nil_append]

/-- Forty bytes are the object representation of the info header read from
them. -/
theorem infoHeader_toBytes_ofBytes (bs : List Byte) (h : bs.length = 40) :
    (BitmapInfoHeader.ofBytes bs).toBytes = bs := by
  match bs, h with
  | b0 :: b1 :: b2 :: b3 :: b4 :: b5 :: b6 :: b7 :: b8 :: b9 :: b10 :: b11 :: b12 :: b13 :: b14
      :: b15 :: b16 :: b17 :: b18 :: b19 :: b20 :: b21 :: b22 :: b23 :: b24 :: b25 :: b26 :: b27
      :: b28 :: b29 :: b30 :: b31 :: b32 :: b33 :: b34 :: b35 :: b36 :: b37 :: b38 :: b39
      :: [], _ =>
    simp only [BitmapInfoHeader.ofBytes, BitmapInfoHeader.toBytes, getU16, getU32, getI32,
      List.getD_cons_zero, List.getD_cons_succ, le16_getU16, le32_getU32, le32s_getI32,
      List.cons_append, List.nil_append]

/-! ## Encoding what was decoded -/

theorem getD_eq_getElem_byte (l : List Byte) (i : Nat) (h : i < l.length) :
    l.getD i 0 = l[i] := by
  simp [List.getD, List.getElem?_eq_getElem h]

theorem take_add_three (l : List Byte) (i : Nat) (h : i + 3 ≤ l.length) :
    l.take (i + 3) = l.take i ++ [l.getD i 0, l.getD (i + 1) 0, l.getD (i + 2) 0] := by
  rw [show i + 3 = i + 1 + 1 + 1 from rfl, take_succ_getElem l (i + 1 + 1) (by omega),
    take_succ_getElem l (i + 1) (by omega), take_succ_getElem l i (by omega),
    getD_eq_getElem_byte l i (by omega), getD_eq_getElem_byte l (i + 1) (by omega),
    getD_eq_getElem_byte l (i + 2) (by omega)]
  simp only [List.append_assoc, List.singleton_append, List.cons_append, List.nil_append]

/-- The pixels decoded from a row buffer, written back as (b,g,r) triples, are
the first `3 * w` bytes of the buffer. -/
theorem flatMap_decodeLine (buff : List Byte) :
    ∀ (w : Nat), 3 * w ≤ buff.length → (decodeLine buff w).flatMap bgr = buff.take (3 * w) := by
  intro w
  induction w with
  | zero => intro _; simp [decodeLine]
  | succ w ih =>
    intro h
    have e : decodeLine buff (w + 1) = decodeLine buff w ++ [pixelAt buff w] := by
      simp [decodeLine, List.range_succ]
    have e3 : 3 * (w + 1) = 3 * w + 3 := by ring
    rw [e, List.flatMap_append, ih (by omega), e3, take_add_three buff (3 * w) (by omega)]
    have i0 : w * 3 + 0 = 3 * w := by omega
    have i1 : w * 3 + 1 = 3 * w + 1 := by omega
    have i2 : w * 3 + 2 = 3 * w + 2 := by omega
    simp [bgr, pixelAt, i0, i1, i2]

/-- Encoding the row decoded from a row buffer with zero padding gives the buffer
back. -/
theorem rowBytes_decodeLine (s w : Nat) (buff : List Byte) (hl : buff.length = s)
    (hs : 3 * w ≤ s) (hpad : buff.drop (3 * w) = List.replicate (s - 3 * w) 0) :
    rowBytes s (decodeLine buff w) = buff := by
  unfold rowBytes
  rw [flatMap_decodeLine buff w (by omega), length_decodeLine, ← hpad, List.take_append_drop]

/-- Encoding the rows decoded from a stream of exactly `n` rows with zero padding
gives the stream back. -/
theorem pixelData_decodeRows (s w : Nat) (hs : 3 * w ≤ s) :
    ∀ (n : Nat) (ifs : List Byte), ifs.length = n * s →
      (∀ r, r < n → (ifs.drop (r * s + 3 * w)).take (s - 3 * w)
        = List.replicate (s - 3 * w) 0) →
      pixelData s (decodeRows s w n ifs) = ifs := by
  intro n
  induction n with
  | zero =>
    intro ifs hl _
    have : ifs = [] := List.length_eq_zero.mp (by omega)
    rw [this]; rfl
  | succ n ih =>
    intro ifs hl hpad
    have hle : s ≤ ifs.length := by
      have : (n + 1) * s = n * s + s := by ring
      omega
    unfold decodeRows
    rw [pixelData_concat]
    have h0 := hpad 0 (by omega)
    simp only [Nat.zero_mul, Nat.zero_add] at h0
    have hrow : rowBytes s (decodeLine (ifs.take s) w) = ifs.take s := by
      apply rowBytes_decodeLine s w _ (by rw [List.length_take]; omega) hs
      rw [← h0, List.drop_take]
    have hrest : pixelData s (decodeRows s w n (ifs.drop s)) = ifs.drop s := by
      apply ih
      · have : (n + 1) * s = n * s + s := by ring
        rw [List.length_drop]; omega
      · intro r hr
        have := hpad (r + 1) (by omega)
        have e : (r + 1) * s + 3 * w = s + (r * s + 3 * w) := by ring
        rw [e] at this
        rw [List.drop_drop]
        exact this
    rw [hrow, hrest, List.take_append_drop]

/-! ## Files that agree on the bytes `LoadBMP` looks at -/

theorem getU16_congr (f g : List Byte) (i : Nat) (h0 : g.getD i 0 = f.getD i 0)
    (h1 : g.getD (i + 1) 0 = f.getD (i + 1) 0) : getU16 g i = getU16 f i := by
  unfold getU16; rw [h0, h1]

theorem getU32_congr (f g : List Byte) (i : Nat) (h0 : g.getD i 0 = f.getD i 0)
    (h1 : g.getD (i + 1) 0 = f.getD (i + 1) 0) (h2 : g.getD (i + 2) 0 = f.getD (i + 2) 0)
    (h3 : g.getD (i + 3) 0 = f.getD (i + 3) 0) : getU32 g i = getU32 f i := by
  unfold getU32; rw [h0, h1, h2, h3]

theorem getI32_congr (f g : List Byte) (i : Nat) (h0 : g.getD i 0 = f.getD i 0)
    (h1 : g.getD (i + 1) 0 = f.getD (i + 1) 0) (h2 : g.getD (i + 2) 0 = f.getD (i + 2) 0)
    (h3 : g.getD (i + 3) 0 = f.getD (i + 3) 0) : getI32 g i = getI32 f i := by
  unfold getI32; rw [getU32_congr f g i h0 h1 h2 h3]

/-- The header fields that `LoadBMP` checks or uses, apart from `bf_size`, are
the same in two files that agree on the bytes 0, 1 and 6 to 25. -/
theorem checked_fields_congr (f g : List Byte)
    (h : ∀ i, i < 26 → (i < 2 ∨ 6 ≤ i) → g.getD i 0 = f.getD i 0) :
    (readFileHeader g).bf_type = (readFileHeader f).bf_type ∧
    (readFileHeader g).bf_reserved_1 = (readFileHeader f).bf_reserved_1 ∧
    (readFileHeader g).bf_reserved_2 = (readFileHeader f).bf_reserved_2 ∧
    (readFileHeader g).bf_off_bits = (readFileHeader f).bf_off_bits ∧
    (readInfoHeader g).bi_size = (readInfoHeader f).bi_size ∧
    (readInfoHeader g).bi_width = (readInfoHeader f).bi_width ∧
    (readInfoHeader g).bi_height = (readInfoHeader f).bi_height := by
  obtain ⟨a1, _, a3, a4, a5⟩ := readFileHeader_fields f
  obtain ⟨b1, _, b3, b4, b5⟩ := readFileHeader_fields g
  obtain ⟨c1, c2, c3, _⟩ := readInfoHeader_fields f
  obtain ⟨d1, d2, d3, _⟩ := readInfoHeader_fields g
  rw [a1, a3, a4, a5, b1, b3, b4, b5, c1, c2, c3, d1, d2, d3]
  exact ⟨getU16_congr f g 0 (h _ (by decide) (by decide)) (h _ (by decide) (by decide)),
    getU16_congr f g 6 (h _ (by decide) (by decide)) (h _ (by decide) (by decide)),
    getU16_congr f g 8 (h _ (by decide) (by decide)) (h _ (by decide) (by decide)),
    getU32_congr f g 10 (h _ (by decide) (by decide)) (h _ (by decide) (by decide))
      (h _ (by decide) (by decide)) (h _ (by decide) (by decide)),
    getU32_congr f g 14 (h _ (by decide) (by decide)) (h _ (by decide) (by decide))
      (h _ (by decide) (by decide)) (h _ (by decide) (by decide)),
    getI32_congr f g 18 (h _ (by decide) (by decide)) (h _ (by decide) (by decide))
      (h _ (by decide) (by decide)) (h _ (by decide) (by decide)),
    getI32_congr f g 22 (h _ (by decide) (by decide)) (h _ (by decide) (by decide))
      (h _ (by decide) (by decide)) (h _ (by decide) (by decide))⟩

theorem bf_size_congr (f g : List Byte) (h : ∀ i, 2 ≤ i → i < 6 → g.getD i 0 = f.getD i 0) :
    (readFileHeader g).bf_size = (readFileHeader f).bf_size := by
  rw [(readFileHeader_fields f).2.1, (readFileHeader_fields g).2.1]
  exact getU32_congr f g 2 (h _ (by decide) (by decide)) (h _ (by decide) (by decide))
    (h _ (by decide) (by decide)) (h _ (by decide) (by decide))

/-- The result of the body of `LoadBMP` depends on the length of the file, on the
bytes 0 to 25 and on the bytes after the headers only. -/
theorem LoadBMP_run_congr (f g : List Byte) (hlen : g.length = f.length)
    (h : ∀ i, i < 26 → g.getD i 0 = f.getD i 0) (hdrop : g.drop 54 = f.drop 54) :
    LoadBMP.run g = LoadBMP.run f := by
  obtain ⟨e1, e3, e4, e5, e6, e7, e8⟩ := checked_fields_congr f g (fun i hi _ => h i hi)
  have e2 := bf_size_congr f g (fun i _ hi => h i (by omega))
  rw [LoadBMP_run_eq g, LoadBMP_run_eq f, e1, e2, e3, e4, e5, e6, e7, e8, hlen, hdrop]

theorem getD_of_take_eq (f g : List Byte) (n : Nat) (h : g.take n = f.take n) (i : Nat)
    (hi : i < n) : g.getD i 0 = f.getD i 0 := by
  rw [← getD_take g n i 0 hi, ← getD_take f n i 0 hi, h]

theorem getD_drop (f : List Byte) (n i : Nat) : (f.drop n).getD i 0 = f.getD (n + i) 0 := by
  simp [List.getD, List.getElem?_drop]

theorem getD_of_drop_eq (f g : List Byte) (n : Nat) (h : g.drop n = f.drop n) (i : Nat)
    (hi : n ≤ i) : g.getD i 0 = f.getD i 0 := by
  have e : i = n + (i - n) := by omega
  rw [e, ← getD_drop g, ← getD_drop f, h]

/-- A file accepted by `LoadBMP` stays accepted, with the same image, when bytes
are changed or appended that are neither in the headers nor pixel bytes of a
row, as long as `bf_size` is the length of the file. -/
theorem LoadBMP_run_accept_congr (f g : List Byte) (image : Image)
    (hacc : LoadBMP.run f = .ok image) (hlen : f.length ≤ g.length)
    (hsize : (readFileHeader g).bf_size = g.length)
    (h : ∀ i, i < 26 → (i < 2 ∨ 6 ≤ i) → g.getD i 0 = f.getD i 0)
    (hrows : ∀ r, r < (readInfoHeader f).bi_height.toNat →
      ((g.drop 54).drop (r * (GetBMPStride (readInfoHeader f).bi_width).toNat)).take
          (3 * (readInfoHeader f).bi_width.toNat)
        = ((f.drop 54).drop (r * (GetBMPStride (readInfoHeader f).bi_width).toNat)).take
          (3 * (readInfoHeader f).bi_width.toNat)) :
    LoadBMP.run g = .ok image := by
  obtain ⟨hv, hs0, h3, hl, himg⟩ := LoadBMP_run_ok f image hacc
  obtain ⟨e1, e3, e4, e5, e6, e7, e8⟩ := checked_fields_congr f g h
  obtain ⟨v0, v1, _, v3, v4, v5, v6⟩ := hv
  have hvg : headersValid g :=
    ⟨by omega, by rw [e1, v1], hsize, by rw [e3, v3], by rw [e4, v4], by rw [e5, v5],
      by rw [e6, v6]⟩
  have hg := LoadBMP_run_accept g hvg (by rw [e7]; exact hs0) (by rw [e7, e8]; exact h3)
    (by rw [e7, e8]; omega)
  have hd : decodeRows (GetBMPStride (readInfoHeader f).bi_width).toNat
      (readInfoHeader f).bi_width.toNat (readInfoHeader f).bi_height.toNat (g.drop 54)
      = decodeRows (GetBMPStride (readInfoHeader f).bi_width).toNat
      (readInfoHeader f).bi_width.toNat (readInfoHeader f).bi_height.toNat (f.drop 54) := by
    rcases h3 with h3 | h3
    · rw [h3]; rfl
    · exact decodeRows_congr _ _ h3 _ _ _ hrows
  have himg2 : decodedImage g = decodedImage f := by
    unfold decodedImage
    rw [e7, e8, hd]
  rw [hg, himg, himg2]

theorem wrapInt32_range (n : Int) : -2147483648 ≤ wrapInt32 n ∧ wrapInt32 n < 2147483648 := by
  unfold wrapInt32; omega

/-- The image that `LoadBMP` returns for an accepted file with non-negative width
and height is a raster image of that width and height. -/
theorem decodedImage_WF (file : List Byte) (hw : 0 ≤ (readInfoHeader file).bi_width)
    (hh : 0 ≤ (readInfoHeader file).bi_height) : (decodedImage file).WF := by
  have rw1 := wrapInt32_range (getU32 file 18)
  have rh1 := wrapInt32_range (getU32 file 22)
  have ew : (readInfoHeader file).bi_width = wrapInt32 (getU32 file 18) :=
    (readInfoHeader_fields file).2.1
  have eh : (readInfoHeader file).bi_height = wrapInt32 (getU32 file 22) :=
    (readInfoHeader_fields file).2.2.1
  unfold Image.WF decodedImage
  simp only
  refine ⟨hw, ?_, hh, ?_, ?_, ?_⟩
  · rw [ew]; exact rw1.2
  · rw [eh]; exact rh1.2
  · exact length_decodeRows _ _ _ _
  · intro ln hln
    exact length_of_mem_decodeRows _ _ _ _ ln hln

/-- The bytes of the file from which an accepted file's pixel (x, y) was
assembled. -/
theorem decoded_pixel_bytes (file : List Byte) (s w n : Nat) (hs : 3 * w ≤ s)
    (hlen : 54 + n * s ≤ file.length) (y x : Nat) (ln : List Color) (c : Color)
    (hy : (decodeRows s w n (file.drop 54)).get? y = some ln) (hx : ln.get? x = some c) :
    file.get? (54 + (n - 1 - y) * s + 3 * x) = some c.b ∧
    file.get? (54 + (n - 1 - y) * s + (3 * x + 1)) = some c.g ∧
    file.get? (54 + (n - 1 - y) * s + (3 * x + 2)) = some c.r := by
  have hyn : y < n := by
    rw [List.get?_eq_getElem?] at hy
    have := (List.getElem?_eq_some_iff.mp hy).1
    rwa [length_decodeRows] at this
  rw [decodeRows_get s w n _ y hyn] at hy
  have hln := (Option.some.inj hy).symm
  have hxw : x < w := by
    rw [List.get?_eq_getElem?] at hx
    have := (List.getElem?_eq_some_iff.mp hx).1
    rwa [hln, length_decodeLine] at this
  rw [hln, decodeLine_get _ w x hxw] at hx
  have hc := (Option.some.inj hx).symm
  have hmul : (n - 1 - y) * s + s ≤ n * s := by
    have : (n - 1 - y) + 1 ≤ n := by omega
    calc (n - 1 - y) * s + s = ((n - 1 - y) + 1) * s := by ring
      _ ≤ n * s := Nat.mul_le_mul_right s this
  have key : ∀ j, j < s →
      ((List.drop ((n - 1 - y) * s) (List.drop 54 file)).take s).getD j 0
        = file.getD (54 + (n - 1 - y) * s + j) 0 := by
    intro j hj
    rw [getD_take _ _ _ _ hj, getD_drop, getD_drop, Nat.add_assoc]
  rw [get?_of_getD_ne file _ (by omega), get?_of_getD_ne file _ (by omega),
    get?_of_getD_ne file _ (by omega), hc]
  have i0 : x * 3 + 0 = 3 * x := by omega
  have i1 : x * 3 + 1 = 3 * x + 1 := by omega
  have i2 : x * 3 + 2 = 3 * x + 2 := by omega
  simp only [pixelAt, i0, i1, i2]
  rw [key _ (by omega), key _ (by omega), key _ (by omega)]
  exact ⟨rfl, rfl, rfl⟩

/-! ## Rejected files, continued (C11 to C13) -/

/-- C11: every byte stream whose `bi_size` info header field is not 40 is
rejected by `LoadBMP`: the body takes `return {}` and the result is the empty
image. -/
theorem C11_bad_bi_size (file : List Byte) (h : getU32 file 14 ≠ 40) :
    LoadBMP.run file = .error .invalid ∧ LoadBMP file = some Image.empty := by
  have hinv : LoadBMP.run file = .error .invalid := by
    apply LoadBMP_run_invalid
    intro hv
    exact h (by rw [← (readInfoHeader_fields file).1]; exact hv.2.2.2.2.2.2)
  exact ⟨hinv, LoadBMP_of_invalid file hinv⟩

/-- C11 witness: the encoded 2 x 2 white image with `bi_size` set to 41. -/
theorem C11_bad_bi_size_witness :
    getU32 (whiteFile.set 14 41) 14 ≠ 40 ∧
      LoadBMP.run (whiteFile.set 14 41) = .error .invalid ∧
      LoadBMP (whiteFile.set 14 41) = some Image.empty :=
  ⟨by decide, C11_bad_bi_size (whiteFile.set 14 41) (by decide)⟩

/-- C12: every byte stream in which `bf_reserved_1` or `bf_reserved_2` is nonzero
is rejected by `LoadBMP`: the body takes `return {}` and the result is the empty
image. -/
theorem C12_reserved_nonzero (file : List Byte)
    (h : getU16 file 6 ≠ 0 ∨ getU16 file 8 ≠ 0) :
    LoadBMP.run file = .error .invalid ∧ LoadBMP file = some Image.empty := by
  have hinv : LoadBMP.run file = .error .invalid := by
    apply LoadBMP_run_bad_fileHeader
    rcases h with h | h
    · exact Or.inr (Or.inr (Or.inl h))
    · exact Or.inr (Or.inr (Or.inr (Or.inl h)))
  exact ⟨hinv, LoadBMP_of_invalid file hinv⟩

/-- C12 witness: the encoded 2 x 2 white image with `bf_reserved_1` set to 1, and
the same image with `bf_reserved_2` set to 256. -/
theorem C12_reserved_nonzero_witness :
    (getU16 (whiteFile.set 6 1) 6 ≠ 0 ∧
      LoadBMP.run (whiteFile.set 6 1) = .error .invalid ∧
      LoadBMP (whiteFile.set 6 1) = some Image.empty) ∧
    (getU16 (whiteFile.set 9 1) 8 ≠ 0 ∧
      LoadBMP.run (whiteFile.set 9 1) = .error .invalid ∧
      LoadBMP (whiteFile.set 9 1) = some Image.empty) :=
  ⟨⟨by decide, C12_reserved_nonzero (whiteFile.set 6 1) (Or.inl (by decide))⟩,
    ⟨by decide, C12_reserved_nonzero (whiteFile.set 9 1) (Or.inr (by decide))⟩⟩

theorem length_create_pixels (w h : Int) (c : Color) :
    (Image.create w h c).pixels.length = h.toNat :=
  List.length_replicate _ _

/-- C13 (amended): `LoadBMP` takes `return {}` and returns the empty image, never a
partially filled one, for every byte stream that is shorter than 14 bytes, or
shorter than 54 bytes, or whose headers pass validation with
0 <= bi_width <= 715827881 but which has fewer than
54 + stride(bi_width)*bi_height bytes. -/
theorem C13_truncated (file : List Byte) :
    (file.length < 14 →
      LoadBMP.run file = .error .invalid ∧ LoadBMP file = some Image.empty) ∧
    (file.length < 54 →
      LoadBMP.run file = .error .invalid ∧ LoadBMP file = some Image.empty) ∧
    (headersValid file → 0 ≤ (readInfoHeader file).bi_width →
      (readInfoHeader file).bi_width ≤ 715827881 →
      (file.length : Int) < 54 + GetBMPStride (readInfoHeader file).bi_width
        * (readInfoHeader file).bi_height →
      LoadBMP.run file = .error .invalid ∧ LoadBMP file = some Image.empty) := by
  have short : file.length < 54 → LoadBMP.run file = .error .invalid := by
    intro h
    apply LoadBMP_run_invalid
    intro hv
    have := hv.1
    omega
  refine ⟨fun h => ⟨short (by omega), LoadBMP_of_invalid file (short (by omega))⟩,
    fun h => ⟨short h, LoadBMP_of_invalid file (short h)⟩, ?_⟩
  intro hv hw0 hw1 hlen
  obtain ⟨hs0, hs3⟩ := stride_ok _ hw0 hw1
  have h54 := hv.1
  have hhpos : 0 < (readInfoHeader file).bi_height := by
    by_contra hneg
    have := Int.mul_le_mul_of_nonneg_left (show (readInfoHeader file).bi_height ≤ 0 by omega) hs0
    rw [Int.mul_zero] at this
    omega
  have hc := toNat_mul_cast _ _ hs0 (show 0 ≤ (readInfoHeader file).bi_height by omega)
  have hinv : LoadBMP.run file = .error .invalid := by
    rw [LoadBMP_run_valid file hv, if_neg (by omega)]
    apply load_rowLoop_short _ _ (by omega)
    · rw [List.length_drop]
      rw [← hc] at hlen
      have : file.length < 54 + (readInfoHeader file).bi_height.toNat
          * (GetBMPStride (readInfoHeader file).bi_width).toNat := by exact_mod_cast hlen
      omega
    · simp [Image.create]
    · intro ln hln
      simp only [Image.create] at hln
      rw [List.eq_of_mem_replicate hln, List.length_replicate]
  exact ⟨hinv, LoadBMP_of_invalid file hinv⟩

/-- C13 witness: a stream of 10 bytes, a stream of 30 bytes, and the 62-byte file
whose headers are valid and announce two rows of 8 bytes but which holds one. -/
theorem C13_truncated_witness :
    ((whiteFile.take 10).length < 14 ∧ LoadBMP (whiteFile.take 10) = some Image.empty) ∧
    ((whiteFile.take 30).length < 54 ∧ LoadBMP (whiteFile.take 30) = some Image.empty) ∧
    (headersValid shortFile ∧ (readInfoHeader shortFile).bi_width = 2 ∧
      (readInfoHeader shortFile).bi_height = 2 ∧ shortFile.length = 62 ∧
      LoadBMP.run shortFile = .error .invalid ∧ LoadBMP shortFile = some Image.empty) :=
  ⟨⟨by decide, ((C13_truncated (whiteFile.take 10)).1 (by decide)).2⟩,
    ⟨by decide, ((C13_truncated (whiteFile.take 30)).2.1 (by decide)).2⟩,
    ⟨by decide, by decide, by decide, by decide,
      (C13_truncated shortFile).2.2 (by decide) (by decide) (by decide) (by decide)⟩⟩

/-- C13 counterexample: the 58-byte file `overrunFile` has valid headers with
bi_width = 1431655766 >= 0, bi_height = 2 > 0 and a stride of 4 > 0 computed by
`GetBMPStride`, and fewer than 54 + stride*bi_height bytes (for the computed
stride as for 4*floor((3*w+3)/4)); `LoadBMP` reads one row of 4 bytes and then
indexes the row buffer outside its bounds instead of returning the empty
image. -/
theorem C13_counterexample :
    headersValid overrunFile ∧ (readInfoHeader overrunFile).bi_width = 1431655766 ∧
      (readInfoHeader overrunFile).bi_height = 2 ∧ GetBMPStride 1431655766 = 4 ∧
      (overrunFile.length : Int) < 54 + GetBMPStride 1431655766 * 2 ∧
      (overrunFile.length : Int) < 54 + 4 * ((3 * 1431655766 + 3) / 4) * 2 ∧
      LoadBMP.run overrunFile = .error .undefined ∧
      LoadBMP overrunFile ≠ some Image.empty := by
  have hv : headersValid overrunFile := by decide
  have hw : (readInfoHeader overrunFile).bi_width = 1431655766 := by decide
  have hh : (readInfoHeader overrunFile).bi_height = 2 := by decide
  have hs : GetBMPStride 1431655766 = 4 := by decide
  have hrun : LoadBMP.run overrunFile = .error .undefined := by
    rw [LoadBMP_run_valid overrunFile hv, hw, hh, hs, if_neg (by decide)]
    exact load_rowLoop_undefined _ _ (by decide) _ _ _ (by decide)
      (by rw [length_create_pixels]) (by decide)
  refine ⟨hv, hw, hh, hs, by decide, by decide, hrun, ?_⟩
  unfold LoadBMP
  rw [hrun]
  exact fun h => Option.noConfusion h

/-! ## Accepted files (C14 to C18) -/

/-- C14: for every byte stream that `LoadBMP` accepts, the returned image has
width bi_width and height bi_height, and its pixel (x,y), for 0 <= x < bi_width
and 0 <= y < bi_height, has b, g, r equal to the stream bytes at the offsets
54 + (bi_height-1-y)*stride(bi_width) + 3x + 0, +1, +2; the bytes at in-row
positions >= 3*bi_width have no influence: a stream of the same length with the
same headers and the same first 3*bi_width bytes in every row is accepted with
the same image. -/
theorem C14_decoded_pixels (file : List Byte) (image : Image)
    (hacc : LoadBMP.run file = .ok image) :
    image.width = (readInfoHeader file).bi_width ∧
    image.height = (readInfoHeader file).bi_height ∧
    image.pixels.length = (readInfoHeader file).bi_height.toNat ∧
    (∀ ln ∈ image.pixels, ln.length = (readInfoHeader file).bi_width.toNat) ∧
    (∀ (y x : Nat) (ln : List Color) (c : Color), image.GetLine y = some ln →
      ln.get? x = some c →
      file.get? (54 + ((readInfoHeader file).bi_height.toNat - 1 - y)
          * (GetBMPStride (readInfoHeader file).bi_width).toNat + 3 * x) = some c.b ∧
      file.get? (54 + ((readInfoHeader file).bi_height.toNat - 1 - y)
          * (GetBMPStride (readInfoHeader file).bi_width).toNat + (3 * x + 1)) = some c.g ∧
      file.get? (54 + ((readInfoHeader file).bi_height.toNat - 1 - y)
          * (GetBMPStride (readInfoHeader file).bi_width).toNat + (3 * x + 2)) = some c.r) ∧
    (∀ file2 : List Byte, file2.length = file.length → file2.take 54 = file.take 54 →
      (∀ r, r < (readInfoHeader file).bi_height.toNat →
        (file2.drop (54 + r * (GetBMPStride (readInfoHeader file).bi_width).toNat)).take
            (3 * (readInfoHeader file).bi_width.toNat)
          = (file.drop (54 + r * (GetBMPStride (readInfoHeader file).bi_width).toNat)).take
            (3 * (readInfoHeader file).bi_width.toNat)) →
      LoadBMP.run file2 = .ok image) := by
  obtain ⟨hv, hs0, h3, hl, himg⟩ := LoadBMP_run_ok file image hacc
  have hpix : image.pixels = decodeRows (GetBMPStride (readInfoHeader file).bi_width).toNat
      (readInfoHeader file).bi_width.toNat (readInfoHeader file).bi_height.toNat
      (file.drop 54) := by rw [himg, decodedImage]
  refine ⟨by rw [himg, decodedImage], by rw [himg, decodedImage], ?_, ?_, ?_, ?_⟩
  · rw [hpix]; exact length_decodeRows _ _ _ _
  · rw [hpix]; intro ln hln; exact length_of_mem_decodeRows _ _ _ _ ln hln
  · intro y x ln c hy hx
    have hy2 : (decodeRows (GetBMPStride (readInfoHeader file).bi_width).toNat
        (readInfoHeader file).bi_width.toNat (readInfoHeader file).bi_height.toNat
        (file.drop 54)).get? y = some ln := by
      rw [List.get?_eq_getElem?, ← hpix]
      exact hy
    have hyn : y < (readInfoHeader file).bi_height.toNat := by
      rw [List.get?_eq_getElem?] at hy2
      have := (List.getElem?_eq_some_iff.mp hy2).1
      rwa [length_decodeRows] at this
    rcases h3 with h3 | h3
    · omega
    · exact decoded_pixel_bytes file _ _ _ h3 hl y x ln c hy2 hx
  · intro file2 hlen htake hrows
    have key := getD_of_take_eq file file2 54 htake
    apply LoadBMP_run_accept_congr file file2 image hacc (by omega)
    · rw [bf_size_congr file file2 (fun i _ hi => key i (by omega)), hv.2.2.1, hlen]
    · intro i hi _
      exact key i (by omega)
    · intro r hr
      rw [List.drop_drop, List.drop_drop, hrows r hr]

/-- C14 witness: the encoded 3 x 2 sample image is accepted, the pixel (1,0) of
the result has b, g, r = bytes 69, 70, 71 of the file, and the file with the nine
padding bytes of row 1 and the three of row 0 set to 0xAA decodes to the same
image. -/
theorem C14_decoded_pixels_witness :
    LoadBMP.run ((SaveBMP sampleImage).getD []) = .ok sampleImage ∧
    (((SaveBMP sampleImage).getD []).get? (54 + (2 - 1 - 0) * 12 + 3 * 1) = some 6 ∧
      ((SaveBMP sampleImage).getD []).get? (54 + (2 - 1 - 0) * 12 + (3 * 1 + 1)) = some 5 ∧
      ((SaveBMP sampleImage).getD []).get? (54 + (2 - 1 - 0) * 12 + (3 * 1 + 2)) = some 4) ∧
    LoadBMP.run ((((((((SaveBMP sampleImage).getD []).set 63 0xAA).set 64 0xAA).set 65
      0xAA).set 75 0xAA).set 76 0xAA).set 77 0xAA) = .ok sampleImage :=
  ⟨by rfl,
    (C14_decoded_pixels ((SaveBMP sampleImage).getD []) sampleImage (by rfl)).2.2.2.2.1 0 1
      [⟨1, 2, 3⟩, ⟨4, 5, 6⟩, ⟨7, 8, 9⟩] ⟨4, 5, 6⟩ (by decide) (by decide),
    (C14_decoded_pixels ((SaveBMP sampleImage).getD []) sampleImage (by rfl)).2.2.2.2.2
      _ (by decide) (by decide) (by decide)⟩

/-- C15: `LoadBMP` is permissive about the unvalidated fields: two byte streams of
the same length that agree on every byte outside the info header fields
bi_planes, bi_bit_count, bi_compression (offsets 26 to 33), bi_x_pels_per_meter,
bi_y_pels_per_meter, bi_clr_used and bi_clr_important (offsets 38 to 53) get the
same result: both fail in the same way, or both return the same image. -/
theorem C15_unvalidated_fields (f g : List Byte) (hlen : g.length = f.length)
    (h1 : g.take 26 = f.take 26) (_h2 : (g.drop 34).take 4 = (f.drop 34).take 4)
    (h3 : g.drop 54 = f.drop 54) :
    LoadBMP.run g = LoadBMP.run f ∧ LoadBMP g = LoadBMP f := by
  have hrun : LoadBMP.run g = LoadBMP.run f :=
    LoadBMP_run_congr f g hlen (getD_of_take_eq f g 26 h1) h3
  exact ⟨hrun, by unfold LoadBMP; rw [hrun]⟩

/-- C15 witness: the encoded 2 x 2 white image with all seven fields overwritten
by 0x7F bytes is decoded to the 2 x 2 white image, like the original. -/
theorem C15_unvalidated_fields_witness :
    lenientFile.length = whiteFile.length ∧ lenientFile ≠ whiteFile ∧
      (readInfoHeader lenientFile).bi_bit_count = 32639 ∧
      LoadBMP lenientFile = LoadBMP whiteFile ∧ LoadBMP lenientFile = some (solid 2 2 white) :=
  ⟨by decide, by decide, by decide,
    (C15_unvalidated_fields whiteFile lenientFile (by decide) (by decide) (by decide)
      (by decide)).2,
    by rw [(C15_unvalidated_fields whiteFile lenientFile (by decide) (by decide) (by decide)
      (by decide)).2]; decide⟩

/-- C16 (amended): `LoadBMP` succeeds whenever every listed check passes and
bi_width <= 715827881: for every byte stream of length L >= 54 with
bf_type = 0x4d42, bf_size = L, both reserved fields 0, bf_off_bits = 54,
bi_size = 40, 0 <= bi_width <= 715827881, bi_height >= 0 and
L >= 54 + stride(bi_width)*bi_height, it does not take `return {}` but returns a
fully populated raster image of bi_width x bi_height pixels. -/
theorem C16_accepts (file : List Byte) (hv : headersValid file)
    (hw0 : 0 ≤ (readInfoHeader file).bi_width)
    (hw1 : (readInfoHeader file).bi_width ≤ 715827881)
    (hh : 0 ≤ (readInfoHeader file).bi_height)
    (hlen : 54 + GetBMPStride (readInfoHeader file).bi_width * (readInfoHeader file).bi_height
      ≤ (file.length : Int)) :
    ∃ image, LoadBMP.run file = .ok image ∧ LoadBMP file = some image ∧
      image.width = (readInfoHeader file).bi_width ∧
      image.height = (readInfoHeader file).bi_height ∧ image.WF := by
  obtain ⟨hs0, hs3⟩ := stride_ok _ hw0 hw1
  have hc := toNat_mul_cast _ _ hs0 hh
  have hrun := LoadBMP_run_accept file hv hs0 (Or.inr (by omega))
    (by
      rw [← hc] at hlen
      exact_mod_cast hlen)
  exact ⟨decodedImage file, hrun, LoadBMP_of_ok file _ hrun, by rw [decodedImage],
    by rw [decodedImage], decodedImage_WF file hw0 hh⟩

/-- C16 witness: the encoded 2 x 2 white image passes every check and is
accepted. -/
theorem C16_accepts_witness :
    headersValid whiteFile ∧ (readInfoHeader whiteFile).bi_width = 2 ∧
      (readInfoHeader whiteFile).bi_height = 2 ∧ whiteFile.length = 70 ∧
      ∃ image, LoadBMP.run whiteFile = .ok image ∧ LoadBMP whiteFile = some image ∧
        image.width = (readInfoHeader whiteFile).bi_width ∧
        image.height = (readInfoHeader whiteFile).bi_height ∧ image.WF :=
  ⟨by decide, by decide, by decide, by decide,
    C16_accepts whiteFile (by decide) (by decide) (by decide) (by decide) (by decide)⟩

/-- C16 counterexample: the 54-byte file `wideEmptyFile` passes every listed
check, with bi_width = 715827882 >= 0, bi_height = 0 and
L = 54 >= 54 + stride(bi_width)*0; the stride computed for it is -2147483644, the
row buffer cannot be created, and `LoadBMP` returns no image. -/
theorem C16_counterexample :
    headersValid wideEmptyFile ∧ wideEmptyFile.length = 54 ∧
      (readInfoHeader wideEmptyFile).bi_width = 715827882 ∧
      (readInfoHeader wideEmptyFile).bi_height = 0 ∧
      GetBMPStride (readInfoHeader wideEmptyFile).bi_width = -2147483644 ∧
      54 + GetBMPStride (readInfoHeader wideEmptyFile).bi_width
        * (readInfoHeader wideEmptyFile).bi_height ≤ (wideEmptyFile.length : Int) ∧
      LoadBMP.run wideEmptyFile = .error .undefined ∧ LoadBMP wideEmptyFile = none :=
  ⟨by decide, by decide, by decide, by decide, by decide, by decide, by rfl, by decide⟩

theorem getD_append_left_byte (s t : List Byte) (i : Nat) (h : i < s.length) :
    (s ++ t).getD i 0 = s.getD i 0 := by
  simp [List.getD, List.getElem?_append_left h]

/-- C17: `LoadBMP` does not require the file size to equal
54 + stride(bi_width)*bi_height: for every stream s that it accepts and every
byte sequence t, a stream s' that is s followed by t with the four bytes of
`bf_size` rewritten to the new total length is accepted as well, with the same
image. -/
theorem C17_trailing_bytes (s t s' : List Byte) (image : Image)
    (hacc : LoadBMP.run s = .ok image) (hmagic : s'.take 2 = s.take 2)
    (hsize : getU32 s' 2 = s'.length) (hrest : s'.drop 6 = (s ++ t).drop 6) :
    LoadBMP.run s' = .ok image ∧ LoadBMP s' = some image := by
  obtain ⟨hv, hs0, h3, hl, himg⟩ := LoadBMP_run_ok s image hacc
  have h54 := hv.1
  have hlen : s'.length = s.length + t.length := by
    have := congrArg List.length hrest
    rw [List.length_drop, List.length_drop, List.length_append] at this
    omega
  have hpt : ∀ i, i < 26 → (i < 2 ∨ 6 ≤ i) → s'.getD i 0 = s.getD i 0 := by
    intro i hi hor
    rcases hor with h | h
    · exact getD_of_take_eq s s' 2 hmagic i h
    · rw [getD_of_drop_eq (s ++ t) s' 6 hrest i h, getD_append_left_byte s t i (by omega)]
  have hdrop : s'.drop 54 = s.drop 54 ++ t := by
    have e : s'.drop 54 = (s'.drop 6).drop 48 := by rw [List.drop_drop]
    rw [e, hrest, List.drop_drop]
    exact List.drop_append_of_le_length h54
  have hrun : LoadBMP.run s' = .ok image := by
    apply LoadBMP_run_accept_congr s s' image hacc (by omega)
    · rw [(readFileHeader_fields s').2.1, hsize]
    · exact hpt
    · intro r hr
      have h3w : 3 * (readInfoHeader s).bi_width.toNat
          ≤ (GetBMPStride (readInfoHeader s).bi_width).toNat := by
        rcases h3 with h3 | h3
        · omega
        · exact h3
      have hmul : r * (GetBMPStride (readInfoHeader s).bi_width).toNat
          + (GetBMPStride (readInfoHeader s).bi_width).toNat
          ≤ (readInfoHeader s).bi_height.toNat
            * (GetBMPStride (readInfoHeader s).bi_width).toNat := by
        calc r * (GetBMPStride (readInfoHeader s).bi_width).toNat
              + (GetBMPStride (readInfoHeader s).bi_width).toNat
            = (r + 1) * (GetBMPStride (readInfoHeader s).bi_width).toNat := by ring
          _ ≤ _ := Nat.mul_le_mul_right _ (by omega)
      rw [hdrop, List.drop_append_of_le_length (by rw [List.length_drop]; omega),
        List.take_append_of_le_length (by rw [List.length_drop, List.length_drop]; omega)]
  exact ⟨hrun, LoadBMP_of_ok s' image hrun⟩

/-- C17 witness: the encoded 2 x 2 white image (70 bytes) followed by the bytes
1, 2, 3, with `bf_size` rewritten to 73, is decoded to the 2 x 2 white image. -/
theorem C17_trailing_bytes_witness :
    LoadBMP.run whiteFile = .ok (solid 2 2 white) ∧
      (whiteFile.take 2 ++ le32 73 ++ (whiteFile ++ [1, 2, 3]).drop 6).length = 73 ∧
      LoadBMP.run (whiteFile.take 2 ++ le32 73 ++ (whiteFile ++ [1, 2, 3]).drop 6)
        = .ok (solid 2 2 white) ∧
      LoadBMP (whiteFile.take 2 ++ le32 73 ++ (whiteFile ++ [1, 2, 3]).drop 6)
        = some (solid 2 2 white) :=
  ⟨by rfl, by decide,
    C17_trailing_bytes whiteFile [1, 2, 3]
      (whiteFile.take 2 ++ le32 73 ++ (whiteFile ++ [1, 2, 3]).drop 6) (solid 2 2 white)
      (by rfl) (by decide) (by decide) (by decide)⟩

theorem getU32_lt (bs : List Byte) (i : Nat) : getU32 bs i < 4294967296 := by
  have h0 := (bs.getD i 0).isLt
  have h1 := (bs.getD (i + 1) 0).isLt
  have h2 := (bs.getD (i + 2) 0).isLt
  have h3 := (bs.getD (i + 3) 0).isLt
  unfold getU32
  omega

/-- The first 54 bytes of a file are the object representations of the two
headers read from it. -/
theorem take54_eq_headers (s : List Byte) (h : 54 ≤ s.length) :
    s.take 54 = (readFileHeader s).toBytes ++ (readInfoHeader s).toBytes := by
  unfold readFileHeader readInfoHeader
  rw [fileHeader_toBytes_ofBytes _ (by rw [List.length_take]; simp [sizeofBitmapFileHeader]; omega),
    infoHeader_toBytes_ofBytes _ (by
      rw [List.length_take, List.length_drop]
      simp [sizeofBitmapFileHeader, sizeofBitmapInfoHeader]; omega)]
  exact List.take_add s 14 40

theorem bf_size_aux (b : Nat) (p : Int) (len : Nat) (hnn : 0 ≤ p) (hb : b = len)
    (hlen : (len : Int) = 54 + p) (hlt : b < 4294967296) :
    b = (54 + (p % 4294967296).toNat) % 4294967296 := by
  omega

theorem size_image_aux (g : Nat) (p : Int) (len : Nat) (hnn : 0 ≤ p) (hg : (g : Int) = p)
    (hlen : (len : Int) = 54 + p) (hlt : (len : Int) < 4294967296) :
    g = (p % 4294967296).toNat := by
  omega

/-- The headers of an accepted file whose unvalidated fields hold the values
that `SaveBMP` writes are the headers that `SaveBMP` writes for the decoded
image. -/
theorem headers_eq_saved (s : List Byte) (hv : headersValid s)
    (hnn : 0 ≤ GetBMPStride (readInfoHeader s).bi_width * (readInfoHeader s).bi_height)
    (hlen : (s.length : Int) = 54 + GetBMPStride (readInfoHeader s).bi_width
      * (readInfoHeader s).bi_height)
    (hplanes : (readInfoHeader s).bi_planes = 1)
    (hbits : (readInfoHeader s).bi_bit_count = 24)
    (hcomp : (readInfoHeader s).bi_compression = 0)
    (hsize : ((readInfoHeader s).bi_size_image : Int)
      = GetBMPStride (readInfoHeader s).bi_width * (readInfoHeader s).bi_height)
    (hxp : (readInfoHeader s).bi_x_pels_per_meter = 11811)
    (hyp : (readInfoHeader s).bi_y_pels_per_meter = 11811)
    (hused : (readInfoHeader s).bi_clr_used = 0)
    (himp : (readInfoHeader s).bi_clr_important = 0x1000000) :
    s.take 54 = savedHeaders (readInfoHeader s).bi_width (readInfoHeader s).bi_height := by
  obtain ⟨h54, v1, v2, v3, v4, v5, v6⟩ := hv
  have hlt : (readFileHeader s).bf_size < 4294967296 := by
    rw [(readFileHeader_fields s).2.1]; exact getU32_lt s 2
  rw [take54_eq_headers s h54]
  unfold savedHeaders
  have hfh : readFileHeader s
      = savedFileHeader (readInfoHeader s).bi_width (readInfoHeader s).bi_height := by
    cases hc : readFileHeader s with
    | mk a b c d e =>
      rw [hc] at v1 v2 v3 v4 v5 hlt
      simp only at v1 v2 v3 v4 v5 hlt
      simp only [savedFileHeader, wrapUInt32, BitmapFileHeader.mk.injEq]
      generalize GetBMPStride (readInfoHeader s).bi_width * (readInfoHeader s).bi_height = p
        at hnn hlen hsize
      have hb : b = (54 + (p % 4294967296).toNat) % 4294967296 :=
        bf_size_aux b p s.length hnn v2 hlen hlt
      exact ⟨v1, hb, v3, v4, v5⟩
  have hih : readInfoHeader s
      = savedInfoHeader (readInfoHeader s).bi_width (readInfoHeader s).bi_height := by
    have hlt2 : (s.length : Int) < 4294967296 := by
      rw [← v2]; exact_mod_cast hlt
    cases hc : readInfoHeader s with
    | mk a b c d e f g h i j k =>
      rw [hc] at v6 hplanes hbits hcomp hsize hxp hyp hused himp hnn hlen
      simp only at v6 hplanes hbits hcomp hsize hxp hyp hused himp hnn hlen
      simp only [savedInfoHeader, wrapUInt32, BitmapInfoHeader.mk.injEq]
      generalize GetBMPStride b * c = p at hnn hlen hsize
      have hg : g = (p % 4294967296).toNat :=
        size_image_aux g p s.length hnn hsize hlen hlt2
      exact ⟨v6, True.intro, True.intro, hplanes, hbits, hcomp, hg, hxp, hyp, hused, himp⟩
  rw [← hfh, ← hih]

theorem rows_fit_int (w h st : Int) (hw : 0 ≤ w) (hh : 0 ≤ h) (hst : 0 ≤ st)
    (h3 : h.toNat = 0 ∨ 3 * w.toNat ≤ st.toNat) : h = 0 ∨ 3 * w ≤ st := by
  omega

/-- C18: a partial inverse in the other direction. For every byte stream s of
length exactly 54 + stride(w)*h that `LoadBMP` accepts (w = bi_width >= 0,
h = bi_height >= 0), whose unvalidated info header fields hold the values that
`SaveBMP` writes (bi_planes=1, bi_bit_count=24, bi_compression=0,
bi_size_image=stride(w)*h, both resolutions 11811, bi_clr_used=0,
bi_clr_important=0x1000000) and whose row padding bytes are all zero, `SaveBMP`
applied to the decoded image writes s byte for byte. -/
theorem C18_encode_decoded (s : List Byte) (image : Image)
    (hacc : LoadBMP.run s = .ok image)
    (hw : 0 ≤ (readInfoHeader s).bi_width) (hh : 0 ≤ (readInfoHeader s).bi_height)
    (hlen : (s.length : Int) = 54 + GetBMPStride (readInfoHeader s).bi_width
      * (readInfoHeader s).bi_height)
    (hplanes : (readInfoHeader s).bi_planes = 1)
    (hbits : (readInfoHeader s).bi_bit_count = 24)
    (hcomp : (readInfoHeader s).bi_compression = 0)
    (hsize : ((readInfoHeader s).bi_size_image : Int)
      = GetBMPStride (readInfoHeader s).bi_width * (readInfoHeader s).bi_height)
    (hxp : (readInfoHeader s).bi_x_pels_per_meter = 11811)
    (hyp : (readInfoHeader s).bi_y_pels_per_meter = 11811)
    (hused : (readInfoHeader s).bi_clr_used = 0)
    (himp : (readInfoHeader s).bi_clr_important = 0x1000000)
    (hpad : ∀ r, r < (readInfoHeader s).bi_height.toNat →
      (s.drop (54 + r * (GetBMPStride (readInfoHeader s).bi_width).toNat
          + 3 * (readInfoHeader s).bi_width.toNat)).take
        ((GetBMPStride (readInfoHeader s).bi_width).toNat
          - 3 * (readInfoHeader s).bi_width.toNat)
      = List.replicate ((GetBMPStride (readInfoHeader s).bi_width).toNat
          - 3 * (readInfoHeader s).bi_width.toNat) 0) :
    SaveBMP image = some s ∧ LoadBMP s = some image := by
  obtain ⟨hv, hs0, h3, hl, himg⟩ := LoadBMP_run_ok s image hacc
  refine ⟨?_, LoadBMP_of_ok s image hacc⟩
  have hwf := decodedImage_WF s hw hh
  have dw : (decodedImage s).width = (readInfoHeader s).bi_width := by rw [decodedImage]
  have dh : (decodedImage s).height = (readInfoHeader s).bi_height := by rw [decodedImage]
  have dp : (decodedImage s).pixels
      = decodeRows (GetBMPStride (readInfoHeader s).bi_width).toNat
        (readInfoHeader s).bi_width.toNat (readInfoHeader s).bi_height.toNat (s.drop 54) := by
    rw [decodedImage]
  have hnn : 0 ≤ GetBMPStride (readInfoHeader s).bi_width * (readInfoHeader s).bi_height :=
    Int.mul_nonneg hs0 hh
  have hc := toNat_mul_cast _ _ hs0 hh
  have hsave := SaveBMP_eq (decodedImage s) hwf (by rw [dw]; exact hs0)
    (by rw [dw, dh]; exact rows_fit_int _ _ _ hw hh hs0 h3)
  rw [dw, dh, dp] at hsave
  rw [himg, hsave]
  have hhead := headers_eq_saved s hv hnn hlen hplanes hbits hcomp hsize hxp hyp hused himp
  have hlenN : (s.drop 54).length = (readInfoHeader s).bi_height.toNat
      * (GetBMPStride (readInfoHeader s).bi_width).toNat := by
    rw [← hc] at hlen
    have : s.length = 54 + (readInfoHeader s).bi_height.toNat
        * (GetBMPStride (readInfoHeader s).bi_width).toNat := by exact_mod_cast hlen
    rw [List.length_drop, this, Nat.add_sub_cancel_left]
  have hdata : pixelData (GetBMPStride (readInfoHeader s).bi_width).toNat
      (decodeRows (GetBMPStride (readInfoHeader s).bi_width).toNat
        (readInfoHeader s).bi_width.toNat (readInfoHeader s).bi_height.toNat (s.drop 54))
      = s.drop 54 := by
    rcases h3 with h3 | h3
    · rw [h3] at hlenN ⊢
      rw [Nat.zero_mul] at hlenN
      rw [List.length_eq_zero.mp hlenN]
      rfl
    · apply pixelData_decodeRows _ _ h3 _ _ hlenN
      intro r hr
      rw [List.drop_drop, ← Nat.add_assoc]
      exact hpad r hr
  rw [hdata, ← hhead, List.take_append_drop]

/-- C18 witness: the encoded 3 x 2 sample image is accepted, has 78 bytes, holds
the fixed field values and zero padding, and encoding the decoded image gives
the same 78 bytes. -/
theorem C18_encode_decoded_witness :
    LoadBMP.run ((SaveBMP sampleImage).getD []) = .ok sampleImage ∧
      ((SaveBMP sampleImage).getD []).length = 78 ∧
      SaveBMP sampleImage = some ((SaveBMP sampleImage).getD []) ∧
      LoadBMP ((SaveBMP sampleImage).getD []) = some sampleImage :=
  ⟨by rfl, by decide,
    C18_encode_decoded ((SaveBMP sampleImage).getD []) sampleImage (by rfl) (by decide)
      (by decide) (by decide) (by decide) (by decide) (by decide) (by decide) (by decide)
      (by decide) (by decide) (by decide) (by decide)⟩

/-! ## The empty image (C19) -/

/-- C19: the failure sentinel cannot be told from a valid empty image. `SaveBMP`
encodes the 0 x 0 image in 54 bytes; these bytes pass every validation check of
`LoadBMP`, which returns an image of width 0 and height 0 without pixels; this
is the empty image, the same value that `LoadBMP` returns for every file that
fails a validation check. -/
theorem C19_empty_image_is_sentinel :
    (Image.create 0 0 Color.Black).WF ∧
    ∃ bytes, SaveBMP (Image.create 0 0 Color.Black) = some bytes ∧ bytes.length = 54 ∧
      headersValid bytes ∧ LoadBMP.run bytes = .ok (Image.create 0 0 Color.Black) ∧
      Image.create 0 0 Color.Black = Image.empty ∧
      Image.empty.width = 0 ∧ Image.empty.height = 0 ∧ Image.empty.pixels = [] ∧
      LoadBMP bytes = some Image.empty ∧
      ∀ file, LoadBMP.run file = .error .invalid → LoadBMP file = LoadBMP bytes :=
  ⟨by decide, (SaveBMP (Image.create 0 0 Color.Black)).getD [], by decide, by decide, by decide,
    by rfl, by decide, by decide, by decide, by decide, by decide,
    fun file h => by rw [LoadBMP_of_invalid file h]; decide⟩

/-- C19 witness: the empty stream fails validation, and `LoadBMP` returns for it
what it returns for the encoded 0 x 0 image. -/
theorem C19_empty_image_is_sentinel_witness :
    LoadBMP.run [] = .error .invalid ∧
      ∃ bytes, SaveBMP (Image.create 0 0 Color.Black) = some bytes ∧
        LoadBMP.run bytes = .ok (Image.create 0 0 Color.Black) ∧ LoadBMP [] = LoadBMP bytes :=
  match C19_empty_image_is_sentinel with
  | ⟨_, bytes, hs, _, _, hrun, _, _, _, _, _, hall⟩ => ⟨rfl, bytes, hs, hrun, hall [] rfl⟩

end img_lib
